import Mathlib

/-!
Verification development for the webledger bank-statement ingestion and
reconciliation engine.

Shallow embedding conventions:
* Go strings are modelled as lists of characters (`GoStr`); the Go standard
  library string operations used by the program (`strings.TrimSpace`,
  `strings.ReplaceAll`, `strings.Contains`, ...) are defined below on that
  representation.
* Go `float64` amounts are modelled as exact rationals (`ℚ`); none of the
  verified properties depends on binary floating-point rounding.
* Go `time.Time` values are modelled as the integer day number of their
  calendar date (days relative to 1970-01-01, proleptic Gregorian); all dates
  handled by the program are midnight UTC, so `Before`/`After`/component
  equality/day differences become `<"`, `>`, `=` and integer subtraction.
  The Go zero time corresponds to the day number of 0001-01-01.
* Fallible Go functions returning `(T, error)` become `Except GoStr T` or
  `Option`.
-/

set_option allowUnsafeReducibility true in
attribute [semireducible] Rat.add Rat.mul Rat.inv Rat.sub

deriving instance DecidableEq for Except

namespace Webledger

/-- Go strings, modelled as lists of characters. -/
abbrev GoStr := List Char

/-- Convert a Lean string literal to the Go string model. -/
def strL (s : String) : GoStr := s.toList

/-- Characters treated as white space by Go `unicode.IsSpace` (ASCII range),
used by `strings.TrimSpace`. -/
def goIsSpace (c : Char) : Bool :=
  c = ' ' || c = '\t' || c = '\n' || c = '\x0b' || c = '\x0c' || c = '\r'

/-- Model of `strings.TrimSpace`. -/
def trimSpace (s : GoStr) : GoStr :=
  ((s.dropWhile goIsSpace).reverse.dropWhile goIsSpace).reverse

/-- Structural worker for `replaceAll`; the fuel argument starts at the
length of the string and strictly dominates the number of steps. -/
def replaceAllFuel (pat rep : GoStr) : Nat → GoStr → GoStr
  | 0, s => s
  | _ + 1, [] => []
  | fuel + 1, c :: s =>
    if pat.isPrefixOf (c :: s) ∧ pat ≠ [] then
      rep ++ replaceAllFuel pat rep fuel ((c :: s).drop pat.length)
    else
      c :: replaceAllFuel pat rep fuel s

/-- Model of `strings.ReplaceAll pat rep` (left-to-right, non-overlapping;
the empty pattern is never used by the program and is treated as identity). -/
def replaceAll (pat rep s : GoStr) : GoStr :=
  replaceAllFuel pat rep s.length s

/-- Model of `strings.Contains s pat`. -/
def containsSub (s pat : GoStr) : Bool :=
  match s with
  | [] => pat.isEmpty
  | _ :: rest => pat.isPrefixOf s || containsSub rest pat

/-- Model of `strings.Index s pat` (index of the first occurrence,
`none` for Go result -1). -/
def strIndex (s pat : GoStr) : Option Nat :=
  match s with
  | [] => if pat.isEmpty then some 0 else none
  | _ :: rest =>
    if pat.isPrefixOf s then some 0
    else (strIndex rest pat).map (· + 1)

/-- Model of `strings.Trim s cutset`: remove all leading and trailing
characters that appear in `cutset`. -/
def trimCutset (s cutset : GoStr) : GoStr :=
  ((s.dropWhile cutset.contains).reverse.dropWhile cutset.contains).reverse

/-- Case mapping used to model Go `strings.ToLower` on the characters that
occur in the program (ASCII plus the accented letters of the bank keywords). -/
def goLowerChar (c : Char) : Char :=
  if c = 'É' then 'é' else if c = 'Í' then 'í'
  else if c = 'Ó' then 'ó' else if c = 'Á' then 'á'
  else if c = 'Ú' then 'ú' else if c = 'Ñ' then 'ñ'
  else c.toLower

/-- Case mapping used to model Go `strings.ToUpper` likewise. -/
def goUpperChar (c : Char) : Char :=
  if c = 'é' then 'É' else if c = 'í' then 'Í'
  else if c = 'ó' then 'Ó' else if c = 'á' then 'Á'
  else if c = 'ú' then 'Ú' else if c = 'ñ' then 'Ñ'
  else c.toUpper

/-- Model of `strings.ToLower`. -/
def lowerG (s : GoStr) : GoStr := s.map goLowerChar

/-- Model of `strings.ToUpper`. -/
def upperG (s : GoStr) : GoStr := s.map goUpperChar

/-- Model of `strings.EqualFold` (simple case folding). -/
def eqFold (s t : GoStr) : Bool := lowerG s = lowerG t

/-- Model of `strings.SplitN s sep 2` for a single-character separator:
split at the first occurrence only. -/
def splitN2 (sep : Char) (s : GoStr) : List GoStr :=
  match strIndex s [sep] with
  | none => [s]
  | some i => [s.take i, s.drop (i + 1)]

/-- ASCII decimal digit test. -/
def isDigit (c : Char) : Bool := '0' ≤ c && c ≤ '9'

/-- Numeric value of a list of decimal digits (most significant first). -/
def natOfDigits (ds : GoStr) : Nat :=
  ds.foldl (fun a c => a * 10 + (c.toNat - '0'.toNat)) 0

/-- The unsigned part of the decimal float syntax: digits with an optional
fractional part (at least one digit overall) and an optional decimal
exponent; the whole string must be consumed. -/
def parseFloatBody (t : GoStr) : Option ℚ :=
  let ip := t.takeWhile isDigit
  let r1 := t.dropWhile isDigit
  let (fp, r2) :=
    match r1 with
    | '.' :: r => (r.takeWhile isDigit, r.dropWhile isDigit)
    | _ => ([], r1)
  if ip = [] ∧ fp = [] then none
  else
    let mant : ℚ := (natOfDigits ip : ℚ) + (natOfDigits fp : ℚ) / ((10 : ℚ) ^ fp.length)
    match r2 with
    | [] => some mant
    | e :: r3 =>
      if e = 'e' ∨ e = 'E' then
        let (eneg, t2) :=
          match r3 with
          | '-' :: r => (true, r)
          | '+' :: r => (false, r)
          | _ => (false, r3)
        let ed := t2.takeWhile isDigit
        let r4 := t2.dropWhile isDigit
        if ed = [] ∨ r4 ≠ [] then none
        else
          let ex : ℚ := (10 : ℚ) ^ natOfDigits ed
          some (if eneg then mant / ex else mant * ex)
      else none

/-- Model of `strconv.ParseFloat` restricted to the decimal syntax the
program can encounter: optional sign, then `parseFloatBody`; any other
input is a parse error (`none`). -/
def parseFloat (s : GoStr) : Option ℚ :=
  match s with
  | '-' :: r => (parseFloatBody r).map (fun q => -q)
  | '+' :: r => parseFloatBody r
  | _ => parseFloatBody s

/-- The unsigned part of the `%f` token scan: greedily collect digits, an
optional dot with digits, and an optional exponent part, without
backtracking; return the token and the unconsumed rest. -/
def floatTokenBody (t1 : GoStr) : GoStr × GoStr :=
  let d1 := t1.takeWhile isDigit
  let t2 := t1.dropWhile isDigit
  let (dot, t3) :=
    match t2 with
    | '.' :: r => (['.'], r)
    | _ => (([] : GoStr), t2)
  let d2 := t3.takeWhile isDigit
  let t4 := t3.dropWhile isDigit
  match t4 with
  | c :: r =>
    if c = 'e' ∨ c = 'E' then
      let (es, r2) :=
        match r with
        | c2 :: r3 => if c2 = '+' ∨ c2 = '-' then ([c2], r3) else (([] : GoStr), r)
        | [] => ([], [])
      let d3 := r2.takeWhile isDigit
      (d1 ++ dot ++ d2 ++ (c :: es) ++ d3, r2.dropWhile isDigit)
    else (d1 ++ dot ++ d2, t4)
  | [] => (d1 ++ dot ++ d2, t4)

/-- Model of the float token accumulation of `fmt`'s `%f` verb
(`fmt.Sscanf(s, "%f", &x)`): optional sign, then `floatTokenBody`. -/
def floatToken (s : GoStr) : GoStr × GoStr :=
  match s with
  | c :: r =>
    if c = '+' ∨ c = '-' then
      let b := floatTokenBody r
      (c :: b.1, b.2)
    else floatTokenBody s
  | [] => floatTokenBody []

/-- Model of `fmt.Sscanf(s, "%f", &amount)` with the error ignored and
`amount` initialised to zero, as the program does. -/
def sscanfF (s : GoStr) : ℚ := (parseFloat (floatToken s).1).getD 0

/-- Success test of `strconv.Atoi` (optional sign, at least one digit). -/
def atoiOk (s : GoStr) : Bool :=
  match s with
  | '-' :: r => r ≠ [] && r.all isDigit
  | '+' :: r => r ≠ [] && r.all isDigit
  | _ => s ≠ [] && s.all isDigit

/-- Truncation toward zero of a rational, modelling Go `int(f)` on a
`float64`. -/
def ratTrunc (q : ℚ) : Int := if 0 ≤ q then ⌊q⌋ else ⌈q⌉

/-! ### Calendar dates

Dates are day numbers relative to 1970-01-01 in the proleptic Gregorian
calendar.  `daysFromCivil`/`civilFromDays` are the standard conversions;
`goDate` adds the month normalisation performed by Go `time.Date`. -/

/-- Day number of a Gregorian calendar date (civil-from-days inverse),
for month in 1..12; day may be out of range (it extrapolates linearly,
exactly as Go `time.Date` normalises days). -/
def daysFromCivil (y m d : Int) : Int :=
  let y2 := if m ≤ 2 then y - 1 else y
  let era := Int.ediv y2 400
  let yoe := y2 - era * 400
  let mp := Int.emod (m + 9) 12
  let doy := Int.ediv (153 * mp + 2) 5 + d - 1
  let doe := yoe * 365 + Int.ediv yoe 4 - Int.ediv yoe 100 + doy
  era * 146097 + doe - 719468

/-- Calendar date (year, month, day) of a day number. -/
def civilFromDays (z0 : Int) : Int × Int × Int :=
  let z := z0 + 719468
  let era := Int.ediv z 146097
  let doe := z - era * 146097
  let yoe := Int.ediv (doe - Int.ediv doe 1460 + Int.ediv doe 36524 - Int.ediv doe 146096) 365
  let y := yoe + era * 400
  let doy := doe - (365 * yoe + Int.ediv yoe 4 - Int.ediv yoe 100)
  let mp := Int.ediv (5 * doy + 2) 153
  let d := doy - Int.ediv (153 * mp + 2) 5 + 1
  let m := mp + (if mp < 10 then 3 else -9)
  (if m ≤ 2 then y + 1 else y, m, d)

/-- Model of Go `time.Date y m d 0 0 0 0 UTC`: normalise the month into
1..12 (shifting the year), then convert; day overflow is handled by the
linearity of `daysFromCivil` in the day argument. -/
def goDate (y m d : Int) : Int :=
  daysFromCivil (y + Int.ediv (m - 1) 12) (Int.emod (m - 1) 12 + 1) d

/-- Day number of the Go zero time `time.Time{}` (0001-01-01 UTC);
`t.IsZero()` becomes equality with this day number. -/
def goZeroDay : Int := daysFromCivil 1 1 1

/-- Day number of the Excel serial-date epoch 1899-12-30 used by
`parseBrouDate`. -/
def excelEpochDay : Int := daysFromCivil 1899 12 30

/-- Gregorian leap-year test (as used by Go `time`). -/
def isLeapYear (y : Int) : Bool :=
  (Int.emod y 4 = 0 && Int.emod y 100 ≠ 0) || Int.emod y 400 = 0

/-- Number of days in a month, used to model the day-range validation of
`time.Parse`. -/
def daysInMonth (y m : Int) : Int :=
  if m = 2 then (if isLeapYear y then 29 else 28)
  else if m = 4 ∨ m = 6 ∨ m = 9 ∨ m = 11 then 30
  else 31

/-- Model of the `time.Parse` loop over the four day/month/year layouts
`02/01/2006`, `2/1/2006`, `02/1/2006`, `2/01/2006`: one- or two-digit day
and month, four-digit year, with range validation. -/
def parseDMY (s : GoStr) : Option Int :=
  match s.splitOn '/' with
  | [ds, ms, ys] =>
    if ds.all isDigit ∧ ms.all isDigit ∧ ys.all isDigit ∧
       (ds.length = 1 ∨ ds.length = 2) ∧ (ms.length = 1 ∨ ms.length = 2) ∧
       ys.length = 4 then
      let d : Int := natOfDigits ds
      let m : Int := natOfDigits ms
      let y : Int := natOfDigits ys
      if 1 ≤ m ∧ m ≤ 12 ∧ 1 ≤ d ∧ d ≤ daysInMonth y m then
        some (daysFromCivil y m d)
      else none
    else none
  | _ => none

/-! ### Amount normalisers (bankstatement.go `parseAmount`,
reconcile `parseLedgerAmount`, Visa `parseVisaAmount`) -/

/-- The common stripping prefix of both amount normalisers:
`TrimSpace`, then remove `$`, `US` and spaces (in that order). -/
def stripCurrency (s : GoStr) : GoStr :=
  replaceAll (strL " ") [] (replaceAll (strL "US") [] (replaceAll (strL "$") [] (trimSpace s)))

/-- The normalisation pipeline of `parseAmount`: strip currency symbols,
disambiguate thousands/decimal separators, rewrite a parenthesised value
to a leading minus. -/
def parseAmountNormalize (s : GoStr) : GoStr :=
  let a1 := stripCurrency s
  let dotCount := a1.count '.'
  let commaCount := a1.count ','
  let a2 :=
    if 0 < commaCount ∧ 0 < dotCount then
      replaceAll [','] ['.'] (replaceAll ['.'] [] a1)
    else if commaCount = 1 ∧ dotCount = 0 then
      replaceAll [','] ['.'] a1
    else if 1 < dotCount then
      replaceAll ['.'] [] a1
    else if 1 < commaCount then
      replaceAll [','] [] a1
    else a1
  if (['(']).isPrefixOf a2 ∧ ([')']).isSuffixOf a2 then
    '-' :: trimCutset a2 ['(', ')']
  else a2

/-- Model of `parseAmount` (bankstatement.go): separator disambiguation,
parenthesised negatives, `strconv.ParseFloat` with errors mapped to zero. -/
def parseAmount (s : GoStr) : ℚ :=
  if s = [] ∨ s = ['-'] then 0
  else (parseFloat (parseAmountNormalize s)).getD 0

/-- Model of `parseLedgerAmount` (the current reconcile code): strip
currency symbols and spaces, drop all commas, scan with `fmt.Sscanf "%f"`. -/
def parseLedgerAmount (s : GoStr) : ℚ :=
  let a1 := stripCurrency s
  let a2 := replaceAll [','] [] a1
  sscanfF a2

/-- Model of `parseVisaAmount` (European format `1.234,56`): leading minus,
drop dots, comma becomes the decimal point, `ParseFloat` with errors
mapped to zero. -/
def parseVisaAmount (s0 : GoStr) : ℚ :=
  let s := trimSpace s0
  if s = [] then 0
  else
    let negative := (['-']).isPrefixOf s
    let s1 := if (['-']).isPrefixOf s then s.drop 1 else s
    let s2 := replaceAll [','] ['.'] (replaceAll ['.'] [] s1)
    let val := (parseFloat s2).getD 0
    if negative then -val else val

/-- Model of `parseBrouDate`: a string accepted by `ParseFloat` is an Excel
serial day count from 1899-12-30; otherwise the day/month/year layouts are
tried. -/
def parseBrouDate (s : GoStr) : Option Int :=
  match parseFloat s with
  | some serial => some (excelEpochDay + ratTrunc serial)
  | none => parseDMY s

/-- Model of `parseItauDate` (delegates to `parseBrouDate`). -/
def parseItauDate (s : GoStr) : Option Int := parseBrouDate s

/-! ### Canonical transaction model (bankstatement.go) -/

/-- Model of `BankTransaction`. -/
structure BankTransaction where
  date : Int
  description : GoStr
  debit : ℚ
  credit : ℚ
  balance : ℚ
  reference : GoStr
  account : GoStr
  currency : GoStr
deriving Repr, DecidableEq

/-- Model of `BankStatement`. -/
structure BankStatement where
  account : GoStr
  currency : GoStr
  transactions : List BankTransaction
  startBalance : ℚ
  endBalance : ℚ
  startDate : Int
  endDate : Int
deriving Repr, DecidableEq

/-- Cell access with the bounds guard used by every reader:
`if col >= 0 && col < lastCol { v = strings.TrimSpace(row.Col(col)) }`,
yielding the empty string otherwise. -/
def cellAt (row : List GoStr) (col : Int) : GoStr :=
  if 0 ≤ col ∧ col.toNat < row.length then trimSpace (row.getD col.toNat []) else []

/-- Append a transaction to a statement and extend the observed date span,
modelling the three statements every reader executes after building a
transaction (`append`, the `StartDate` update, the `EndDate` update). -/
def pushTx (st : BankStatement) (tx : BankTransaction) : BankStatement :=
  let st1 := { st with transactions := st.transactions ++ [tx] }
  let st2 :=
    if st1.startDate = goZeroDay ∨ tx.date < st1.startDate then
      { st1 with startDate := tx.date }
    else st1
  if st2.endDate = goZeroDay ∨ st2.endDate < tx.date then
    { st2 with endDate := tx.date }
  else st2

/-- The date-span update alone (used by the Visa reader on the special
payment lines, where it runs even when no transaction is appended). -/
def spanUpd (st : BankStatement) (d : Int) : BankStatement :=
  let st2 :=
    if st.startDate = goZeroDay ∨ d < st.startDate then
      { st with startDate := d }
    else st
  if st2.endDate = goZeroDay ∨ st2.endDate < d then
    { st2 with endDate := d }
  else st2

/-! ### BROU tabular reader (`parseBrouSheet`) -/

/-- The mutable locals of the BROU header-discovery pass. -/
structure BrouScan where
  currency : GoStr
  headerRow : Int
  dateCol : Int
  descCol : Int
  refCol : Int
  debitCol : Int
  creditCol : Int
deriving Repr, DecidableEq

/-- Processing of a single cell in the BROU header-discovery pass:
currency detection from a `moneda` cell, then the keyword chain
recording the header row and column indices. -/
def brouScanCell (rowIdx colIdx : Nat) (cell : GoStr) (st : BrouScan) : BrouScan :=
  let cellStr := trimSpace cell
  let cellLower := lowerG cellStr
  let st1 :=
    if containsSub cellLower (strL "moneda") then
      if containsSub cellStr (strL "U$S") ∨ containsSub cellStr (strL "US$") ∨
         containsSub cellLower (strL "dolar") ∨ containsSub cellLower (strL "dólar") ∨
         containsSub cellLower (strL "usd") then
        { st with currency := strL "US$" }
      else if containsSub cellStr (strL "$") ∨ containsSub cellLower (strL "peso") then
        { st with currency := strL "$" }
      else st
    else st
  if eqFold cellStr (strL "fecha") then
    { st1 with headerRow := (rowIdx : Int), dateCol := (colIdx : Int) }
  else if containsSub (lowerG cellStr) (strL "descripci") then
    { st1 with descCol := (colIdx : Int) }
  else if containsSub (lowerG cellStr) (strL "referencia") ∨
          containsSub (lowerG cellStr) (strL "asunto") then
    { st1 with refCol := (colIdx : Int) }
  else if containsSub (lowerG cellStr) (strL "débito") ∨
          containsSub (lowerG cellStr) (strL "debito") then
    { st1 with debitCol := (colIdx : Int) }
  else if containsSub (lowerG cellStr) (strL "crédito") ∨
          containsSub (lowerG cellStr) (strL "credito") then
    { st1 with creditCol := (colIdx : Int) }
  else st1

/-- One row of the BROU header-discovery pass. -/
def brouScanRow (rowIdx : Nat) (row : List GoStr) (st : BrouScan) : BrouScan :=
  row.enum.foldl (fun acc p => brouScanCell rowIdx p.1 p.2 acc) st

/-- The BROU header-discovery loop: scan at most the first 100 rows,
skip empty rows, stop once a header row has been recorded. -/
def brouFindHeader : Nat → List (List GoStr) → BrouScan → BrouScan
  | _, [], st => st
  | i, row :: rest, st =>
    if 100 ≤ i then st
    else
      let st2 := if row.length = 0 then st else brouScanRow i row st
      if 0 ≤ st2.headerRow then st2 else brouFindHeader (i + 1) rest st2

/-- The BROU transaction-extraction loop over the rows after the header:
stop at an empty date cell or a `total` marker, skip rows whose date does
not parse, otherwise build a transaction and extend the date span. -/
def brouRowsLoop (sc : BrouScan) : List (List GoStr) → BankStatement → BankStatement
  | [], acc => acc
  | row :: rest, acc =>
    if row.length = 0 then brouRowsLoop sc rest acc
    else
      let dateStr := cellAt row sc.dateCol
      if dateStr = [] ∨ containsSub (lowerG dateStr) (strL "total") then acc
      else
        match parseBrouDate dateStr with
        | none => brouRowsLoop sc rest acc
        | some date =>
          let tx : BankTransaction :=
            { date := date
              description := cellAt row sc.descCol
              debit := parseAmount (cellAt row sc.debitCol)
              credit := parseAmount (cellAt row sc.creditCol)
              balance := 0
              reference := cellAt row sc.refCol
              account := strL "Assets:Bank:BROU"
              currency := acc.currency }
          brouRowsLoop sc rest (pushTx acc tx)

/-- Initial `BrouScan` state (`headerRow`, and all column indices, -1). -/
def brouScanInit : BrouScan :=
  { currency := strL "$", headerRow := -1, dateCol := -1, descCol := -1,
    refCol := -1, debitCol := -1, creditCol := -1 }

/-- Model of `parseBrouSheet`: the sheet is the grid of trimmed-on-access
cell strings (XLS decoding is performed by an external library); a missing
header row is the `HeaderNotFoundError` of the specification. -/
def parseBrouSheet (rows : List (List GoStr)) : Except GoStr BankStatement :=
  let sc := brouFindHeader 0 rows brouScanInit
  if sc.headerRow = -1 then
    .error (strL "could not find header row in BROU statement")
  else
    let st0 : BankStatement :=
      { account := strL "Assets:Bank:BROU", currency := sc.currency,
        transactions := [], startBalance := 0, endBalance := 0,
        startDate := goZeroDay, endDate := goZeroDay }
    .ok (brouRowsLoop sc (rows.drop (sc.headerRow.toNat + 1)) st0)

/-! ### Itau tabular reader (`ParseItauStatement`) -/

/-- The mutable locals of the Itau header-discovery pass. -/
structure ItauScan where
  currency : GoStr
  headerRow : Int
  dateCol : Int
  conceptCol : Int
  debitCol : Int
  creditCol : Int
  balanceCol : Int
  refCol : Int
  monedaCol : Int
deriving Repr, DecidableEq

/-- The `Moneda` bookkeeping of the Itau header-discovery pass: the
`Moneda` column is remembered and its value row (a later row, same
column) determines the currency. -/
def itauMonedaUpd (colIdx : Nat) (cellRaw cellStr : GoStr) (st : ItauScan) : ItauScan :=
  let st1 := if cellStr = strL "moneda" then { st with monedaCol := (colIdx : Int) } else st
  if 0 ≤ st1.monedaCol ∧ (colIdx : Int) = st1.monedaCol ∧ cellStr ≠ strL "moneda" then
    if containsSub cellStr (strL "dolar") ∨ containsSub cellStr (strL "dólar") ∨
       containsSub cellStr (strL "dollar") ∨ containsSub cellRaw (strL "US$") ∨
       containsSub cellStr (strL "usd") then
      { st1 with currency := strL "US$" }
    else if containsSub cellStr (strL "peso") ∨ cellRaw = strL "$" then
      { st1 with currency := strL "$" }
    else st1
  else st1

/-- Processing of a single cell in the Itau header-discovery pass: the
currency bookkeeping above, then the keyword chain recording the header
row and column indices. -/
def itauScanCell (rowIdx colIdx : Nat) (cell : GoStr) (st : ItauScan) : ItauScan :=
  let cellRaw := trimSpace cell
  let cellStr := lowerG cellRaw
  let st2 := itauMonedaUpd colIdx cellRaw cellStr st
  if cellStr = strL "fecha" then
    { st2 with headerRow := (rowIdx : Int), dateCol := (colIdx : Int) }
  else if cellStr = strL "concepto" then
    { st2 with conceptCol := (colIdx : Int) }
  else if containsSub cellStr (strL "débito") ∨ cellStr = strL "debito" then
    { st2 with debitCol := (colIdx : Int) }
  else if containsSub cellStr (strL "crédito") ∨ cellStr = strL "credito" then
    { st2 with creditCol := (colIdx : Int) }
  else if cellStr = strL "saldo" then
    { st2 with balanceCol := (colIdx : Int) }
  else if cellStr = strL "referencia" then
    { st2 with refCol := (colIdx : Int) }
  else st2

/-- One row of the Itau header-discovery pass. -/
def itauScanRow (rowIdx : Nat) (row : List GoStr) (st : ItauScan) : ItauScan :=
  row.enum.foldl (fun acc p => itauScanCell rowIdx p.1 p.2 acc) st

/-- The Itau header-discovery loop (first 100 rows, stop on success). -/
def itauFindHeader : Nat → List (List GoStr) → ItauScan → ItauScan
  | _, [], st => st
  | i, row :: rest, st =>
    if 100 ≤ i then st
    else
      let st2 := if row.length = 0 then st else itauScanRow i row st
      if 0 ≤ st2.headerRow then st2 else itauFindHeader (i + 1) rest st2

/-- The Itau transaction-extraction loop: stop at an empty date cell or
`SALDO FINAL`, skip rows without a `/` in the date cell, skip the
`SALDO ANTERIOR` opening-balance row and rows whose date does not parse. -/
def itauRowsLoop (sc : ItauScan) : List (List GoStr) → BankStatement → BankStatement
  | [], acc => acc
  | row :: rest, acc =>
    if row.length = 0 then itauRowsLoop sc rest acc
    else
      let dateStr := cellAt row sc.dateCol
      if dateStr = [] ∨ containsSub (upperG dateStr) (strL "SALDO FINAL") then acc
      else if ¬ containsSub dateStr (strL "/") then itauRowsLoop sc rest acc
      else
        let concept := cellAt row sc.conceptCol
        if containsSub (upperG concept) (strL "SALDO ANTERIOR") then
          itauRowsLoop sc rest acc
        else
          match parseItauDate dateStr with
          | none => itauRowsLoop sc rest acc
          | some date =>
            let tx : BankTransaction :=
              { date := date
                description := concept
                debit := parseAmount (cellAt row sc.debitCol)
                credit := parseAmount (cellAt row sc.creditCol)
                balance := parseAmount (cellAt row sc.balanceCol)
                reference := cellAt row sc.refCol
                account := strL "Assets:Bank:Itau"
                currency := acc.currency }
            itauRowsLoop sc rest (pushTx acc tx)

/-- Initial `ItauScan` state. -/
def itauScanInit : ItauScan :=
  { currency := strL "$", headerRow := -1, dateCol := -1, conceptCol := -1,
    debitCol := -1, creditCol := -1, balanceCol := -1, refCol := -1, monedaCol := -1 }

/-- Model of `ParseItauStatement` from the first sheet of the workbook
(the grid of its cell strings). -/
def parseItauSheet (rows : List (List GoStr)) : Except GoStr BankStatement :=
  let sc := itauFindHeader 0 rows itauScanInit
  if sc.headerRow = -1 then
    .error (strL "could not find header row in Itau statement")
  else
    let st0 : BankStatement :=
      { account := strL "Assets:Bank:Itau", currency := sc.currency,
        transactions := [], startBalance := 0, endBalance := 0,
        startDate := goZeroDay, endDate := goZeroDay }
    .ok (itauRowsLoop sc (rows.drop (sc.headerRow.toNat + 1)) st0)

/-! ### Generic CSV reader (`ParseBankStatementCSV`) -/

/-- The column indices and detected currency of the CSV header scan. -/
structure CsvCols where
  dateCol : Int
  descCol : Int
  debitCol : Int
  creditCol : Int
  currency : GoStr
deriving Repr, DecidableEq

/-- The CSV header scan: substring keyword matching over the header cells,
with the currency read from the first data row under a currency column. -/
def csvHeaderScan (header firstDataRow : List GoStr) : CsvCols :=
  header.enum.foldl
    (fun st p =>
      let colLower := lowerG (trimSpace p.2)
      if containsSub colLower (strL "fecha") ∨ containsSub colLower (strL "date") then
        { st with dateCol := (p.1 : Int) }
      else if containsSub colLower (strL "descripci") ∨
              containsSub colLower (strL "description") ∨
              containsSub colLower (strL "concepto") then
        { st with descCol := (p.1 : Int) }
      else if containsSub colLower (strL "débito") ∨ containsSub colLower (strL "debito") ∨
              containsSub colLower (strL "debit") then
        { st with debitCol := (p.1 : Int) }
      else if containsSub colLower (strL "crédito") ∨ containsSub colLower (strL "credito") ∨
              containsSub colLower (strL "credit") then
        { st with creditCol := (p.1 : Int) }
      else if containsSub colLower (strL "moneda") ∨ containsSub colLower (strL "currency") then
        if p.1 < firstDataRow.length then
          let currencyVal := trimSpace (firstDataRow.getD p.1 [])
          if containsSub currencyVal (strL "US$") ∨
             containsSub (lowerG currencyVal) (strL "usd") ∨
             containsSub (lowerG currencyVal) (strL "dolar") then
            { st with currency := strL "US$" }
          else st
        else st
      else st)
    { dateCol := -1, descCol := -1, debitCol := -1, creditCol := -1, currency := strL "$" }

/-- The CSV data-row loop: rows with an empty or unparsable date are
skipped (never aborting the document). -/
def csvRowsLoop (cols : CsvCols) (account : GoStr) :
    List (List GoStr) → BankStatement → BankStatement
  | [], acc => acc
  | row :: rest, acc =>
    if row.length = 0 then csvRowsLoop cols account rest acc
    else
      let dateStr := cellAt row cols.dateCol
      if dateStr = [] then csvRowsLoop cols account rest acc
      else
        match parseBrouDate dateStr with
        | none => csvRowsLoop cols account rest acc
        | some date =>
          let tx : BankTransaction :=
            { date := date
              description := cellAt row cols.descCol
              debit := parseAmount (cellAt row cols.debitCol)
              credit := parseAmount (cellAt row cols.creditCol)
              balance := 0
              reference := []
              account := account
              currency := acc.currency }
          csvRowsLoop cols account rest (pushTx acc tx)

/-- Model of `ParseBankStatementCSV` from the decoded records. -/
def ParseBankStatementCSV (records : List (List GoStr)) (account : GoStr) :
    Except GoStr BankStatement :=
  if records.length < 2 then .error (strL "CSV file is empty or has no data rows")
  else
    let cols := csvHeaderScan (records.getD 0 []) (records.getD 1 [])
    let st0 : BankStatement :=
      { account := account, currency := cols.currency,
        transactions := [], startBalance := 0, endBalance := 0,
        startDate := goZeroDay, endDate := goZeroDay }
    .ok (csvRowsLoop cols account (records.drop 1) st0)

/-! ### Visa Itau layout-based reader (`ParseVisaItauStatement`)

The geometric preprocessing of the PDF (sorting positioned text runs and
grouping them into lines by the y-coordinate threshold) only determines the
reconstructed line texts; the model below therefore takes the list of line
texts and performs everything the Go code does from that point on.  String
positions are character positions (the statements contain only single-byte
characters in the relevant region). -/

/-- Characters matched by the regular-expression class `\s`. -/
def reSpace (c : Char) : Bool :=
  c = ' ' || c = '\t' || c = '\n' || c = '\x0c' || c = '\r'

/-- Anchored match of the transaction date pattern
`^\s*(\d{2})\s+(\d{2})\s+(\d{2})\s+`: on success returns day, month,
two-digit year and the line remainder (which is also the result of
removing the matched prefix with `ReplaceAllString`). -/
def visaDateMatch (s : GoStr) : Option (Nat × Nat × Nat × GoStr) :=
  match s.dropWhile reSpace with
  | a :: b :: r1 =>
    if isDigit a ∧ isDigit b then
      if r1.takeWhile reSpace = [] then none else
      match r1.dropWhile reSpace with
      | c :: d :: r2 =>
        if isDigit c ∧ isDigit d then
          if r2.takeWhile reSpace = [] then none else
          match r2.dropWhile reSpace with
          | e :: f :: r3 =>
            if isDigit e ∧ isDigit f then
              if r3.takeWhile reSpace = [] then none
              else some (natOfDigits [a, b], natOfDigits [c, d], natOfDigits [e, f],
                         r3.dropWhile reSpace)
            else none
          | _ => none
        else none
      | _ => none
    else none
  | _ => none

/-- Maximal number of leading `\.\d{3}` groups. -/
def dotGroupsMax : GoStr → Nat
  | '.' :: a :: b :: c :: r =>
    if isDigit a ∧ isDigit b ∧ isDigit c then dotGroupsMax r + 1 else 0
  | _ => 0

/-- Whether a string starts with `,\d{2}`. -/
def commaDD : GoStr → Bool
  | ',' :: a :: b :: _ => isDigit a && isDigit b
  | _ => false

/-- Backtracking over the group count of `(\.\d{3})*` (greedy, largest
first), as the regular-expression engine does. -/
def tryGroups (rest : GoStr) : Nat → Option Nat
  | 0 => if commaDD rest then some 0 else none
  | k + 1 =>
    if commaDD (rest.drop (4 * (k + 1))) then some (k + 1) else tryGroups rest k

/-- Length of a match of the amount pattern `-?\d+(?:\.\d{3})*,\d{2}` at
the start of the string, if any. -/
def amtMatchLen (s : GoStr) : Option Nat :=
  let (negLen, t) :=
    match s with
    | '-' :: r => (1, r)
    | _ => (0, s)
  let ds := t.takeWhile isDigit
  if ds = [] then none
  else
    let rest := t.dropWhile isDigit
    match tryGroups rest (dotGroupsMax rest) with
    | none => none
    | some k => some (negLen + ds.length + 4 * k + 3)

/-- Worker for `amtFindAll` (fuel bounds the scan). -/
def amtFindAllFuel : Nat → GoStr → Nat → List (GoStr × Nat × Nat)
  | 0, _, _ => []
  | _ + 1, [], _ => []
  | fuel + 1, s, pos =>
    match amtMatchLen s with
    | some len => (s.take len, pos, pos + len) :: amtFindAllFuel fuel (s.drop len) (pos + len)
    | none => amtFindAllFuel fuel (s.drop 1) (pos + 1)

/-- All non-overlapping leftmost matches of the amount pattern together
with their start/end positions (`FindAllString` and
`FindAllStringIndex`). -/
def amtFindAll (s : GoStr) : List (GoStr × Nat × Nat) := amtFindAllFuel s.length s 0

/-- The two per-currency statements being accumulated by the Visa reader. -/
structure VisaState where
  peso : BankStatement
  dollar : BankStatement
deriving Repr, DecidableEq

/-- Initial Visa reader state (both statements empty). -/
def visaInitState : VisaState :=
  { peso := { account := strL "Assets:VisaItau", currency := strL "$",
              transactions := [], startBalance := 0, endBalance := 0,
              startDate := goZeroDay, endDate := goZeroDay }
    dollar := { account := strL "Assets:VisaItau", currency := strL "US$",
                transactions := [], startBalance := 0, endBalance := 0,
                startDate := goZeroDay, endDate := goZeroDay } }

/-- The transaction record built by the Visa reader from a signed amount:
a negative amount becomes a credit, a non-negative one a debit. -/
def visaTx (date : Int) (description : GoStr) (amount : ℚ) (curr : GoStr) :
    BankTransaction :=
  { date := date, description := description,
    debit := if amount < 0 then 0 else amount,
    credit := if amount < 0 then -amount else 0,
    balance := 0, reference := [],
    account := strL "Assets:VisaItau", currency := curr }

/-- Processing of one reconstructed line by the Visa reader: date check,
amount extraction, description recovery, the special dual-currency
payment-line case (which updates both date spans even when an amount of
zero suppresses a transaction), and the normal last-amount case with
line-length-based currency classification. -/
def processVisaLine (vs : VisaState) (lineStr : GoStr) : VisaState :=
  match visaDateMatch lineStr with
  | none => vs
  | some (day, month, year2, lineAfterDate) =>
    let date := goDate (2000 + (year2 : Int)) (month : Int) (day : Int)
    let found := amtFindAll lineAfterDate
    let amounts := found.map (·.1)
    let positions := found.map (·.2)
    let description1 :=
      match amounts with
      | [] => lineAfterDate
      | a0 :: _ =>
        match strIndex lineAfterDate a0 with
        | some idx => if 0 < idx then trimSpace (lineAfterDate.take idx) else lineAfterDate
        | none => lineAfterDate
    let description :=
      match splitN2 ' ' description1 with
      | [p0, p1] => if p0.length = 4 ∧ atoiOk p0 then trimSpace p1 else description1
      | _ => description1
    let isDollarLine := 115 ≤ lineStr.length
    let isPagosLine := containsSub (upperG description) (strL "PAGOS")
    if isPagosLine ∧ 2 ≤ amounts.length ∧ 2 ≤ positions.length ∧
       (positions.getD (positions.length - 2) (0, 0)).2 < 95 then
      let pesoAmount := parseVisaAmount (amounts.getD (amounts.length - 2) [])
      let dollarAmount := parseVisaAmount (amounts.getD (amounts.length - 1) [])
      let peso1 :=
        if pesoAmount ≠ 0 then
          { vs.peso with transactions := vs.peso.transactions ++
              [visaTx date description pesoAmount (strL "$")] }
        else vs.peso
      let dollar1 :=
        if dollarAmount ≠ 0 then
          { vs.dollar with transactions := vs.dollar.transactions ++
              [visaTx date description dollarAmount (strL "US$")] }
        else vs.dollar
      { peso := spanUpd peso1 date, dollar := spanUpd dollar1 date }
    else
      let statementAmount :=
        match amounts.getLast? with
        | some a => parseVisaAmount a
        | none => 0
      if statementAmount = 0 then vs
      else
        let tx : BankTransaction :=
          visaTx date description statementAmount
            (if isDollarLine then strL "US$" else strL "$")
        if isDollarLine then { vs with dollar := pushTx vs.dollar tx }
        else { vs with peso := pushTx vs.peso tx }

/-- Model of `ParseVisaItauStatement` from the reconstructed line texts:
fold the line processor, omit empty statements, fail when neither currency
produced a transaction. -/
def ParseVisaItauStatement (lineTexts : List GoStr) : Except GoStr (List BankStatement) :=
  let vs := lineTexts.foldl processVisaLine visaInitState
  let result :=
    (if vs.peso.transactions ≠ [] then [vs.peso] else []) ++
    (if vs.dollar.transactions ≠ [] then [vs.dollar] else [])
  if result = [] then .error (strL "no transactions found in PDF") else .ok result

/-! ### Date formatting (`time.Format` layouts `2006-01-02` and
`2006/01/02`) -/

/-- Decimal digits of a natural number. -/
def natDigits (n : Nat) : GoStr := Nat.toDigits 10 n

/-- Two-digit zero padding (months and days). -/
def pad2 (n : Int) : GoStr :=
  let ds := natDigits n.toNat
  if ds.length < 2 then List.replicate (2 - ds.length) '0' ++ ds else ds

/-- Four-digit zero padding (years; all program dates have positive
four-digit years). -/
def pad4 (n : Int) : GoStr :=
  let ds := natDigits n.toNat
  if ds.length < 4 then List.replicate (4 - ds.length) '0' ++ ds else ds

/-- `time.Format` with a year-month-day layout and the given separator. -/
def formatYMD (sep : Char) (z : Int) : GoStr :=
  let c := civilFromDays z
  pad4 c.1 ++ [sep] ++ pad2 c.2.1 ++ [sep] ++ pad2 c.2.2

/-! ### Reconciliation (the reconcile source file) -/

/-- Model of `LedgerTransaction`. -/
structure LedgerTransaction where
  date : Int
  description : GoStr
  account : GoStr
  amount : ℚ
  lineNumber : Nat
  rawEntry : GoStr
deriving Repr, DecidableEq

/-- Model of `ReconciliationMatch`.  The Go struct stores pointers
`&statement.Transactions[bi]` and `&ledgerTransactions[li]`; the model
stores the indices `bi` and `li`. -/
structure RMatch where
  bi : Nat
  li : Nat
  matchScore : ℚ
  matchType : GoStr
deriving Repr, DecidableEq

/-- The matching bookkeeping of `ReconcileBankStatement`: the accumulated
matches and the `matchedBank` / `matchedLedger` index sets (Go
`map[int]bool`, modelled as the lists of indices marked true). -/
structure MatchState where
  matchList : List RMatch
  matchedBank : List Nat
  matchedLedger : List Nat
deriving Repr, DecidableEq

/-- The inner loop of the exact pass: the first unconsumed ledger
transaction with the same calendar date and an amount within 0.001 of the
bank net amount. -/
def findExactMatch (bt : BankTransaction) (mL : List Nat) :
    List (Nat × LedgerTransaction) → Option Nat
  | [] => none
  | (li, lt) :: rest =>
    if mL.contains li then findExactMatch bt mL rest
    else if ¬ bt.date = lt.date then findExactMatch bt mL rest
    else if |((bt.credit - bt.debit) - lt.amount)| < 1 / 1000 then some li
    else findExactMatch bt mL rest

/-- The exact pass: one scan per bank transaction, each consuming at most
one ledger transaction; every produced match has score 1 and type
`exact`. -/
def exactPass (lts : List (Nat × LedgerTransaction)) :
    List (Nat × BankTransaction) → MatchState → MatchState
  | [], st => st
  | (bi, bt) :: rest, st =>
    if st.matchedBank.contains bi then exactPass lts rest st
    else
      match findExactMatch bt st.matchedLedger lts with
      | some li =>
        exactPass lts rest
          { matchList := st.matchList ++ [⟨bi, li, 1, strL "exact"⟩],
            matchedBank := st.matchedBank ++ [bi],
            matchedLedger := st.matchedLedger ++ [li] }
      | none => exactPass lts rest st

/-- The inner loop of the fuzzy pass: the first unconsumed ledger
transaction within two days whose amount is within 0.001; the score is
`1 - daysDiff / 3`. -/
def findFuzzyMatch (bt : BankTransaction) (mL : List Nat) :
    List (Nat × LedgerTransaction) → Option (Nat × ℚ)
  | [] => none
  | (li, lt) :: rest =>
    if mL.contains li then findFuzzyMatch bt mL rest
    else
      let daysDiff : Int := |bt.date - lt.date|
      if 2 < daysDiff then findFuzzyMatch bt mL rest
      else if |((bt.credit - bt.debit) - lt.amount)| < 1 / 1000 then
        some (li, 1 - (daysDiff : ℚ) / 3)
      else findFuzzyMatch bt mL rest

/-- The fuzzy pass over the still-unmatched bank transactions. -/
def fuzzyPass (lts : List (Nat × LedgerTransaction)) :
    List (Nat × BankTransaction) → MatchState → MatchState
  | [], st => st
  | (bi, bt) :: rest, st =>
    if st.matchedBank.contains bi then fuzzyPass lts rest st
    else
      match findFuzzyMatch bt st.matchedLedger lts with
      | some (li, score) =>
        fuzzyPass lts rest
          { matchList := st.matchList ++ [⟨bi, li, score, strL "fuzzy"⟩],
            matchedBank := st.matchedBank ++ [bi],
            matchedLedger := st.matchedLedger ++ [li] }
      | none => fuzzyPass lts rest st

/-- Both matching passes of `ReconcileBankStatement`, in order. -/
def reconcileMatchState (stmt : BankStatement) (lts : List LedgerTransaction) :
    MatchState :=
  let st1 := exactPass lts.enum stmt.transactions.enum ⟨[], [], []⟩
  fuzzyPass lts.enum stmt.transactions.enum st1

/-- Model of `BankTransactionWithStatus` (the ledger pointer becomes the
index of the matched ledger transaction). -/
structure BankTransactionWithStatus where
  transaction : BankTransaction
  matched : Bool
  matchType : GoStr
  matchScore : ℚ
  ledgerIndex : Option Nat
deriving Repr, DecidableEq

/-- Model of `ReconciliationResult`. -/
structure ReconciliationResult where
  matchList : List RMatch
  unmatchedBank : List BankTransaction
  unmatchedLedger : List LedgerTransaction
  allBankTransactions : List BankTransactionWithStatus
  bankStatement : BankStatement
  dateRange : GoStr
  totalBankDebits : ℚ
  totalBankCredits : ℚ
  totalLedgerDebits : ℚ
  totalLedgerCredits : ℚ
deriving Repr, DecidableEq

/-- The enumerated unmatched bank transactions (the collection loop keeps
input order). -/
def unmatchedBankEnum (stmt : BankStatement) (lts : List LedgerTransaction) :
    List (Nat × BankTransaction) :=
  stmt.transactions.enum.filter
    (fun p => ¬ (reconcileMatchState stmt lts).matchedBank.contains p.1)

/-- The enumerated unmatched ledger transactions within the statement date
span: consumed indices are skipped, and each non-zero bound excludes the
dates strictly outside it. -/
def unmatchedLedgerEnum (stmt : BankStatement) (lts : List LedgerTransaction) :
    List (Nat × LedgerTransaction) :=
  lts.enum.filter
    (fun p =>
      ¬ (reconcileMatchState stmt lts).matchedLedger.contains p.1 ∧
      ¬ (stmt.startDate ≠ goZeroDay ∧ p.2.date < stmt.startDate) ∧
      ¬ (stmt.endDate ≠ goZeroDay ∧ stmt.endDate < p.2.date))

/-- A default transaction value (Go zero value), used to resolve the
pointer dereference in the status-building loop. -/
def defaultTx : BankTransaction :=
  { date := goZeroDay, description := [], debit := 0, credit := 0,
    balance := 0, reference := [], account := [], currency := [] }

/-- The match-detail search of the `AllBankTransactions` loop: the first
match whose referenced bank transaction agrees with `bt` on date,
description, debit and credit. -/
def findMatchDetails (txs : List BankTransaction) (matchList : List RMatch)
    (bt : BankTransaction) : Option RMatch :=
  matchList.find?
    (fun m =>
      let mbt := txs.getD m.bi defaultTx
      mbt.date = bt.date ∧ mbt.description = bt.description ∧
      mbt.debit = bt.debit ∧ mbt.credit = bt.credit)

/-- Model of `ReconcileBankStatement` (current reconcile source): date
range and totals, the two matching passes, the unmatched remainders and
the per-transaction status list. -/
def ReconcileBankStatement (stmt : BankStatement) (lts : List LedgerTransaction) :
    ReconciliationResult :=
  let st := reconcileMatchState stmt lts
  { matchList := st.matchList
    unmatchedBank := (unmatchedBankEnum stmt lts).map (·.2)
    unmatchedLedger := (unmatchedLedgerEnum stmt lts).map (·.2)
    allBankTransactions :=
      stmt.transactions.enum.map
        (fun p =>
          if st.matchedBank.contains p.1 then
            match findMatchDetails stmt.transactions st.matchList p.2 with
            | some m =>
              { transaction := p.2, matched := true, matchType := m.matchType,
                matchScore := m.matchScore, ledgerIndex := some m.li }
            | none =>
              { transaction := p.2, matched := true, matchType := [],
                matchScore := 0, ledgerIndex := none }
          else
            { transaction := p.2, matched := false, matchType := [],
              matchScore := 0, ledgerIndex := none })
    bankStatement := stmt
    dateRange :=
      if stmt.startDate ≠ goZeroDay ∧ stmt.endDate ≠ goZeroDay then
        formatYMD '-' stmt.startDate ++ strL " to " ++ formatYMD '-' stmt.endDate
      else []
    totalBankDebits := (stmt.transactions.map (·.debit)).sum
    totalBankCredits := (stmt.transactions.map (·.credit)).sum
    totalLedgerDebits := (lts.map (fun lt => if lt.amount < 0 then -lt.amount else 0)).sum
    totalLedgerCredits := (lts.map (fun lt => if lt.amount < 0 then 0 else lt.amount)).sum }

/-- Shallow embedding of a call to `ReconcileBankStatement` with its
pointer arguments made explicit: the Go function receives the statement
and the ledger slice by reference, so the embedding returns — alongside
the result — the values those references hold after the call.  No
statement of the Go body assigns through either reference, which is why
the returned values are the arguments themselves. -/
def ReconcileBankStatementCall (stmt : BankStatement) (lts : List LedgerTransaction) :
    ReconciliationResult × BankStatement × List LedgerTransaction :=
  (ReconcileBankStatement stmt lts, stmt, lts)

/-! ### Entry generator (`GetAccountForDescription`,
`GenerateLedgerEntries`)

The account-mapping configuration is a process-wide variable loaded from a
JSON file; the model passes the loaded mapping list explicitly.  The Go
code iterates the group map in an unspecified order; the model keeps
insertion order (none of the verified properties depends on the order of
the grouped entries). -/

/-- Model of `AccountMapping`. -/
structure AccountMapping where
  patterns : List GoStr
  account : GoStr
deriving Repr, DecidableEq

/-- Worker for `normalizeWhitespace`: replace each maximal run of `\s`
characters by a single space (the flag records whether the previous
character was part of a run). -/
def collapseWsAux (prevSpace : Bool) : GoStr → GoStr
  | [] => []
  | c :: rest =>
    if reSpace c then
      if prevSpace then collapseWsAux true rest
      else ' ' :: collapseWsAux true rest
    else c :: collapseWsAux false rest

/-- Model of `normalizeWhitespace` (regexp `\s+` to a single space, then
`TrimSpace`). -/
def normalizeWhitespace (s : GoStr) : GoStr := trimSpace (collapseWsAux false s)

/-- The mapping search of `GetAccountForDescription`: first mapping one of
whose normalised upper-cased patterns occurs in the normalised upper-cased
description. -/
def findMappedAccount (descN : GoStr) : List AccountMapping → Option GoStr
  | [] => none
  | m :: rest =>
    if m.patterns.any (fun pattern => containsSub descN (upperG (normalizeWhitespace pattern))) then
      some m.account
    else findMappedAccount descN rest

/-- Model of `GetAccountForDescription`: the mapped account if any pattern
matches, otherwise the expense/income unknown sentinel chosen by the sign
of the net amount. -/
def GetAccountForDescription (mappings : List AccountMapping) (description : GoStr)
    (isExpense : Bool) : GoStr :=
  match findMappedAccount (upperG (normalizeWhitespace description)) mappings with
  | some a => a
  | none => if isExpense then strL "Expenses:Unknown" else strL "Income:Unknown"

/-- Round to an integer, ties to even (`fmt` `%.2f` formatting of an
exactly-representable value). -/
def roundHalfEven (q : ℚ) : Int :=
  let f := ⌊q⌋
  let r := q - (f : ℚ)
  if r < 1 / 2 then f
  else if 1 / 2 < r then f + 1
  else if Int.emod f 2 = 0 then f else f + 1

/-- Model of `fmt.Sprintf "%.2f"` on the model rationals. -/
def formatF2 (q : ℚ) : GoStr :=
  let c := roundHalfEven (q * 100)
  let a := c.natAbs
  (if c < 0 then strL "-" else []) ++ natDigits (a / 100) ++ strL "." ++ pad2 ((a % 100 : Nat) : Int)

/-- Model of `groupedTransaction`. -/
structure GroupedTransaction where
  date : Int
  bankAccount : GoStr
  counterAccount : GoStr
  transactions : List BankTransaction
deriving Repr, DecidableEq

/-- Insert a transaction into the group map (`groups[key]` created on
first use with the metadata of the first transaction, then the
transaction appended). -/
def addToGroups (key : GoStr) (tx : BankTransaction) (date : Int)
    (bankAccount counterAccount : GoStr) :
    List (GoStr × GroupedTransaction) → List (GoStr × GroupedTransaction)
  | [] => [(key, ⟨date, bankAccount, counterAccount, [tx]⟩)]
  | (k, g) :: rest =>
    if k = key then (k, { g with transactions := g.transactions ++ [tx] }) :: rest
    else (k, g) :: addToGroups key tx date bankAccount counterAccount rest

/-- The grouping key `date|bankAccount|counterAccount`
(`fmt.Sprintf "%s|%s|%s"` with the `2006/01/02` date layout). -/
def groupKey (tx : BankTransaction) (counterAccount : GoStr) : GoStr :=
  formatYMD '/' tx.date ++ strL "|" ++ tx.account ++ strL "|" ++ counterAccount

/-- The classification loop of `GenerateLedgerEntries`: transactions whose
resolved counter-account contains the `Unknown` sentinel are kept
individual, the rest are grouped by `groupKey`. -/
def classifyUnmatched (mappings : List AccountMapping) (txs : List BankTransaction) :
    List BankTransaction × List (GoStr × GroupedTransaction) :=
  txs.foldl
    (fun acc tx =>
      let amount := tx.credit - tx.debit
      let counterAccount := GetAccountForDescription mappings tx.description (amount < 0)
      if containsSub counterAccount (strL "Unknown") then (acc.1 ++ [tx], acc.2)
      else (acc.1, addToGroups (groupKey tx counterAccount) tx tx.date tx.account counterAccount acc.2))
    ([], [])

/-- Description plus reference suffix, shared by both entry shapes. -/
def descWithRef (tx : BankTransaction) : GoStr :=
  let d := trimSpace tx.description
  if tx.reference ≠ [] then d ++ strL " - " ++ tx.reference else d

/-- An individual suggested entry for an unknown-account transaction. -/
def individualEntry (tx : BankTransaction) : GoStr :=
  let amount := tx.credit - tx.debit
  let currency := if tx.currency = [] then strL "$" else tx.currency
  let counterAccount := if amount < 0 then strL "Expenses:Unknown" else strL "Income:Unknown"
  formatYMD '/' tx.date ++ strL " " ++ descWithRef tx ++ strL "\n  " ++ tx.account ++
    strL "  " ++ currency ++ formatF2 amount ++ strL "\n  " ++ counterAccount ++ strL "\n"

/-- The 30-character description truncation of the per-line comments. -/
def shortDesc30 (d : GoStr) : GoStr :=
  let s := trimSpace d
  if 30 < s.length then s.take 30 ++ strL "..." else s

/-- A grouped suggested entry: combined description, one posting line per
transaction (with a per-line comment when the group has more than one),
and the counter-account line. -/
def groupEntry (g : GroupedTransaction) : GoStr :=
  let descriptions := g.transactions.map descWithRef
  let mainDesc :=
    match descriptions with
    | [] => []
    | d0 :: rest =>
      if rest ≠ [] then d0 ++ strL " (+" ++ natDigits rest.length ++ strL " more)" else d0
  let txLines :=
    g.transactions.foldl
      (fun acc tx =>
        let amount := tx.credit - tx.debit
        let currency := if tx.currency = [] then strL "$" else tx.currency
        let line := strL "  " ++ g.bankAccount ++ strL "  " ++ currency ++ formatF2 amount
        let line2 :=
          if 1 < g.transactions.length then line ++ strL "  ; " ++ shortDesc30 tx.description
          else line
        acc ++ line2 ++ strL "\n")
      []
  formatYMD '/' g.date ++ strL " " ++ mainDesc ++ strL "\n" ++ txLines ++
    strL "  " ++ g.counterAccount ++ strL "\n"

/-- Model of `GenerateLedgerEntries`: individual entries for the
unknown-account transactions, then one entry per group. -/
def GenerateLedgerEntries (mappings : List AccountMapping)
    (unmatchedTransactions : List BankTransaction) : List GoStr :=
  let c := classifyUnmatched mappings unmatchedTransactions
  c.1.map individualEntry ++ c.2.map (fun p => groupEntry p.2)

/-! ### Verification-side definitions -/

/-- The sign discipline of a parsed transaction: debit and credit are both
non-negative and at most one of them is non-zero. -/
def signOk (tx : BankTransaction) : Prop :=
  0 ≤ tx.debit ∧ 0 ≤ tx.credit ∧ (tx.debit = 0 ∨ tx.credit = 0)

instance (tx : BankTransaction) : Decidable (signOk tx) := by
  unfold signOk
  infer_instance

/-- The weak date-span discipline: a span endpoint still holding the Go
zero date means no transaction has been recorded, and every recorded
transaction date lies between the endpoints. -/
def spanBounds (st : BankStatement) : Prop :=
  (st.startDate = goZeroDay → st.transactions = []) ∧
  (st.endDate = goZeroDay → st.transactions = []) ∧
  ∀ tx ∈ st.transactions, st.startDate ≤ tx.date ∧ tx.date ≤ st.endDate

/-- The exact date-span discipline: the weak discipline together with the
zero span of an empty statement and the attainment of both endpoints
(which makes them the minimum and the maximum of the recorded dates). -/
def spanInv (st : BankStatement) : Prop :=
  (st.transactions = [] → st.startDate = goZeroDay ∧ st.endDate = goZeroDay) ∧
  (st.startDate = goZeroDay → st.transactions = []) ∧
  (st.endDate = goZeroDay → st.transactions = []) ∧
  (st.transactions ≠ [] →
    st.startDate ∈ st.transactions.map (fun t => t.date) ∧
    st.endDate ∈ st.transactions.map (fun t => t.date)) ∧
  ∀ tx ∈ st.transactions, st.startDate ≤ tx.date ∧ tx.date ≤ st.endDate

/-- First sample transaction of the grouping scenario: 2024-03-10,
description `SUPER A`, debit 50. -/
def gtx1 : BankTransaction :=
  { date := goDate 2024 3 10, description := strL "SUPER A", debit := 50,
    credit := 0, balance := 0, reference := [],
    account := strL "Assets:Bank:BROU", currency := strL "$" }

/-- Second sample transaction of the grouping scenario: same date and
bank account, description `SUPER B`, debit 70. -/
def gtx2 : BankTransaction :=
  { date := goDate 2024 3 10, description := strL "SUPER B", debit := 70,
    credit := 0, balance := 0, reference := [],
    account := strL "Assets:Bank:BROU", currency := strL "$" }

/-- The per-match score discipline of the two passes: exact matches carry
score 1, fuzzy matches carry `1 - d/3` for a day difference `d ≤ 2`. -/
def scoreOk (m : RMatch) : Prop :=
  (m.matchType = strL "exact" ∧ m.matchScore = 1) ∨
  (m.matchType = strL "fuzzy" ∧ ∃ d : Nat, d ≤ 2 ∧ m.matchScore = 1 - (d : ℚ) / 3)

/-- The bookkeeping invariant of the matching passes: the matched-bank and
matched-ledger sets are exactly the (duplicate-free) index columns of the
match list, all indices are in range, and every match respects the score
discipline. -/
def matchStateInv (n nl : Nat) (st : MatchState) : Prop :=
  st.matchedBank = st.matchList.map (fun m => m.bi) ∧
  st.matchedLedger = st.matchList.map (fun m => m.li) ∧
  st.matchedBank.Nodup ∧
  st.matchedLedger.Nodup ∧
  (∀ b ∈ st.matchedBank, b < n) ∧
  (∀ l ∈ st.matchedLedger, l < nl) ∧
  (∀ m ∈ st.matchList, scoreOk m)

/-- A sample bank transaction used by concrete witness instances. -/
def wBt (date : Int) (debit credit : ℚ) : BankTransaction :=
  { date := date, description := strL "W", debit := debit, credit := credit,
    balance := 0, reference := [], account := strL "Assets:Bank:BROU",
    currency := strL "$" }

/-- A sample ledger transaction used by concrete witness instances. -/
def wLt (date : Int) (amount : ℚ) : LedgerTransaction :=
  { date := date, description := strL "w", account := strL "Assets:Bank:BROU",
    amount := amount, lineNumber := 1, rawEntry := [] }

/-- A sample statement used by concrete witness instances. -/
def wStmt (txs : List BankTransaction) (s e : Int) : BankStatement :=
  { account := strL "Assets:Bank:BROU", currency := strL "$",
    transactions := txs, startBalance := 0, endBalance := 0,
    startDate := s, endDate := e }

/-! ## Helper lemmas -/

/-- Replacing a single character that does not occur is the identity
(worker form). -/
theorem replaceAllFuel_single_of_not_mem (c : Char) (r : GoStr) :
    ∀ fuel s, c ∉ s → replaceAllFuel [c] r fuel s = s := by
  intro fuel
  induction fuel with
  | zero => intro s _; rfl
  | succ n ih =>
    intro s h
    cases s with
    | nil => rfl
    | cons a t =>
      have hca : ¬ (c = a) := fun e => h (e ▸ List.mem_cons_self a t)
      have hpre : ([c].isPrefixOf (a :: t)) = false := by
        simp [List.isPrefixOf, hca]
      simp only [replaceAllFuel, hpre, Bool.false_eq_true, false_and, if_false]
      exact congrArg (a :: ·) (ih t (fun hm => h (List.mem_cons_of_mem a hm)))

/-- Replacing a single character that does not occur is the identity. -/
theorem replaceAll_single_of_not_mem (c : Char) (r s : GoStr) (h : c ∉ s) :
    replaceAll [c] r s = s :=
  replaceAllFuel_single_of_not_mem c r s.length s h

/-- After `dropWhile`, no leading element satisfies the predicate. -/
theorem takeWhile_dropWhile_self (p : Char → Bool) :
    ∀ s : GoStr, (s.dropWhile p).takeWhile p = [] := by
  intro s
  induction s with
  | nil => rfl
  | cons a t ih =>
    by_cases hp : p a
    · simpa [List.dropWhile, hp] using ih
    · simp [List.dropWhile, List.takeWhile, hp]

/-- `takeWhile` passes over a block that wholly satisfies the predicate. -/
theorem takeWhile_append_all (p : Char → Bool) :
    ∀ l1 l2 : GoStr, l1.all p → (l1 ++ l2).takeWhile p = l1 ++ l2.takeWhile p := by
  intro l1
  induction l1 with
  | nil => intro l2 _; rfl
  | cons a t ih =>
    intro l2 h
    rcases List.all_eq_true.mp h a (List.mem_cons_self a t) with ha
    simp only [List.cons_append, List.takeWhile_cons, ha, if_true]
    exact congrArg (a :: ·) (ih l2 (List.all_eq_true.mpr
      (fun x hx => List.all_eq_true.mp h x (List.mem_cons_of_mem a hx))))

/-- `dropWhile` drops a block that wholly satisfies the predicate. -/
theorem dropWhile_append_all (p : Char → Bool) :
    ∀ l1 l2 : GoStr, l1.all p → (l1 ++ l2).dropWhile p = l2.dropWhile p := by
  intro l1
  induction l1 with
  | nil => intro l2 _; rfl
  | cons a t ih =>
    intro l2 h
    rcases List.all_eq_true.mp h a (List.mem_cons_self a t) with ha
    simp only [List.cons_append, List.dropWhile_cons, ha, if_true]
    exact ih l2 (List.all_eq_true.mpr
      (fun x hx => List.all_eq_true.mp h x (List.mem_cons_of_mem a hx)))

/-- A plain unsigned decimal (digits, optional dot and digits) is consumed
whole by the unsigned `%f` token scan. -/
theorem floatTokenBody_plain (ds fs : GoStr) (hds : ds.all isDigit)
    (hfs : fs = [] ∨ ∃ fs0 : GoStr, fs = '.' :: fs0 ∧ fs0.all isDigit) :
    floatTokenBody (ds ++ fs) = (ds ++ fs, []) := by
  rcases hfs with hfs | ⟨fs0, rfl, hfs0⟩
  · subst hfs
    have hA : ds.takeWhile isDigit = ds := by
      simpa using takeWhile_append_all isDigit ds [] hds
    have hB : ds.dropWhile isDigit = [] := by
      simpa using dropWhile_append_all isDigit ds [] hds
    simp only [floatTokenBody, List.append_nil, hA, hB,
      List.takeWhile_nil, List.dropWhile_nil]
  · have h1 : (ds ++ '.' :: fs0).takeWhile isDigit = ds := by
      rw [takeWhile_append_all isDigit ds _ hds]
      simp [List.takeWhile_cons, isDigit]
    have h2 : (ds ++ '.' :: fs0).dropWhile isDigit = '.' :: fs0 := by
      rw [dropWhile_append_all isDigit ds _ hds]
      simp [List.dropWhile_cons, isDigit]
    have h3 : fs0.takeWhile isDigit = fs0 := by
      have := takeWhile_append_all isDigit fs0 [] hfs0
      simpa using this
    have h4 : fs0.dropWhile isDigit = [] := by
      have := dropWhile_append_all isDigit fs0 [] hfs0
      simpa using this
    simp [floatTokenBody, h1, h2, h3, h4]

/-- A plain decimal with an optional sign is consumed whole by the `%f`
token scan. -/
theorem floatToken_plain (sgn ds fs : GoStr)
    (hsgn : sgn = [] ∨ sgn = ['-'] ∨ sgn = ['+'])
    (hne : ds ≠ []) (hds : ds.all isDigit)
    (hfs : fs = [] ∨ ∃ fs0 : GoStr, fs = '.' :: fs0 ∧ fs0.all isDigit) :
    floatToken (sgn ++ ds ++ fs) = (sgn ++ ds ++ fs, []) := by
  have hbody := floatTokenBody_plain ds fs hds hfs
  rcases hsgn with rfl | rfl | rfl
  · rcases hd : ds with _ | ⟨d, ds0⟩
    · exact absurd hd hne
    · subst hd
      have hdd : isDigit d := List.all_eq_true.mp hds d (List.mem_cons_self d ds0)
      have hnotsign : ¬ (d = '+' ∨ d = '-') := by
        rintro (rfl | rfl) <;> simp [isDigit] at hdd
      simpa [floatToken, hnotsign] using hbody
  · simpa [floatToken, Prod.ext_iff] using hbody
  · simpa [floatToken, Prod.ext_iff] using hbody

/-! ## Claim C5 -/

/-- C5 (counterexample): `parseAmount` does not map `"1,234.56"` to
`1234.56`; the both-separators rule always treats dots as thousands and
the comma as the decimal separator, so the result is `1.23456`. -/
theorem parseAmount_us_format_cex :
    parseAmount (strL "1,234.56") = 123456 / 100000 ∧
    ¬ parseAmount (strL "1,234.56") = 123456 / 100 := by decide

/-- C5 (amended): `parseAmount` maps `"1.234,56"` to `1234.56` and
`"1,234.56"` to `1.23456` (not `1234.56`), maps `"(100)"` to `-100`, maps
the empty string and `"-"` to `0`, and maps any input whose normalised
form fails the numeric parse to `0` rather than failing. -/
theorem parseAmount_normalization_amended :
    parseAmount (strL "1.234,56") = 123456 / 100 ∧
    parseAmount (strL "1,234.56") = 123456 / 100000 ∧
    parseAmount (strL "(100)") = -100 ∧
    parseAmount (strL "") = 0 ∧
    parseAmount (strL "-") = 0 ∧
    ∀ s : GoStr, parseFloat (parseAmountNormalize s) = none → parseAmount s = 0 := by
  refine ⟨by decide, by decide, by decide, by decide, by decide, ?_⟩
  intro s h
  unfold parseAmount
  by_cases he : s = [] ∨ s = ['-']
  · rw [if_pos he]
  · rw [if_neg he, h]
    rfl

/-! ## Claim C6 -/

/-- C6 (counterexample): the ledger amount normalizer is not the shared
`parseAmount` normalizer: on `"1.234,56"` the two functions disagree
(`parseAmount` reads `1234.56`, `parseLedgerAmount` drops the comma and
reads `1.23456`). -/
theorem ledger_amount_normalizer_cex :
    parseAmount (strL "1.234,56") = 123456 / 100 ∧
    parseLedgerAmount (strL "1.234,56") = 123456 / 100000 ∧
    ¬ parseLedgerAmount (strL "1.234,56") = parseAmount (strL "1.234,56") := by decide

/-- C6 (amended): `parseLedgerAmount` is a simpler US-format normalizer,
not the same function as `parseAmount`; the two agree on every input whose
stripped form is a plain signed decimal (optional sign, digits, optional
fraction, no comma) — in particular on everything the ledger tool prints
after comma removal — but differ on mixed-separator inputs. -/
theorem ledger_amount_normalizer_amended (s sgn ds fs : GoStr)
    (hshape : stripCurrency s = sgn ++ ds ++ fs)
    (hsgn : sgn = [] ∨ sgn = ['-'] ∨ sgn = ['+'])
    (hne : ds ≠ []) (hds : ds.all isDigit)
    (hfs : fs = [] ∨ ∃ fs0 : GoStr, fs = '.' :: fs0 ∧ fs0.all isDigit) :
    parseLedgerAmount s = parseAmount s := by
  -- characters of the stripped form
  have hdigit_ne : ∀ c : Char, isDigit c = true → c ≠ ',' ∧ c ≠ '.' ∨ c = '.' := by
    intro c hc
    left
    constructor
    · rintro rfl; simp [isDigit] at hc
    · rintro rfl; simp [isDigit] at hc
  have hmem_ds : ∀ c, c ∈ ds → isDigit c := fun c hc => List.all_eq_true.mp hds c hc
  have hcomma : ',' ∉ sgn ++ ds ++ fs := by
    intro hm
    rcases List.mem_append.mp hm with hm | hm
    · rcases List.mem_append.mp hm with hm | hm
      · rcases hsgn with rfl | rfl | rfl <;> simp_all
      · have := hmem_ds _ hm; simp [isDigit] at this
    · rcases hfs with rfl | ⟨fs0, rfl, hfs0⟩
      · simp at hm
      · rcases List.mem_cons.mp hm with hm | hm
        · exact absurd hm (by decide)
        · have := List.all_eq_true.mp hfs0 _ hm; simp [isDigit] at this
  have hdotcount : (sgn ++ ds ++ fs).count '.' ≤ 1 := by
    have hsgn0 : sgn.count '.' = 0 := by
      rcases hsgn with rfl | rfl | rfl <;> decide
    have hds0 : ds.count '.' = 0 := by
      refine List.count_eq_zero.mpr (fun hm => ?_)
      have := hmem_ds _ hm; simp [isDigit] at this
    have hfs1 : fs.count '.' ≤ 1 := by
      rcases hfs with rfl | ⟨fs0, rfl, hfs0⟩
      · simp
      · have hfs00 : fs0.count '.' = 0 := by
          refine List.count_eq_zero.mpr (fun hm => ?_)
          have := List.all_eq_true.mp hfs0 _ hm; simp [isDigit] at this
        simp [List.count_cons, hfs00]
    calc (sgn ++ ds ++ fs).count '.'
        = sgn.count '.' + ds.count '.' + fs.count '.' := by
          rw [List.count_append, List.count_append]
      _ ≤ 1 := by omega
  have hnoparen : (['(']).isPrefixOf (sgn ++ ds ++ fs) = false := by
    rcases hsgn with rfl | rfl | rfl
    · rcases hd : ds with _ | ⟨d, ds0⟩
      · exact absurd hd hne
      · subst hd
        have hdd := hmem_ds d (List.mem_cons_self d ds0)
        have hdo : d ≠ '(' := by rintro rfl; simp [isDigit] at hdd
        have hod : ¬ '(' = d := fun e => hdo e.symm
        simp [List.isPrefixOf, hod]
    · simp [List.isPrefixOf]
    · simp [List.isPrefixOf]
  -- the early-return cases of parseAmount cannot occur
  have hs_ne_nil : s ≠ [] := by
    rintro rfl
    have h0 : stripCurrency ([] : GoStr) = [] := by decide
    rw [h0] at hshape
    rcases List.append_eq_nil.mp hshape.symm with ⟨h1, _⟩
    exact hne (List.append_eq_nil.mp h1).2
  have hs_ne_dash : s ≠ ['-'] := by
    rintro rfl
    have h0 : stripCurrency (['-'] : GoStr) = ['-'] := by decide
    rw [h0] at hshape
    rcases hsgn with rfl | rfl | rfl
    · simp only [List.nil_append] at hshape
      rcases hd : ds with _ | ⟨d, ds0⟩
      · exact hne hd
      · rw [hd] at hshape
        have : d = '-' := by
          have := congrArg (fun l => l.headD ' ') hshape
          simpa using this.symm
        subst this
        have hdd := hmem_ds '-' (by rw [hd]; exact List.mem_cons_self _ _)
        simp [isDigit] at hdd
    · simp only [List.cons_append, List.nil_append, List.cons.injEq] at hshape
      exact hne (List.append_eq_nil.mp hshape.2.symm).1
    · simp only [List.cons_append, List.nil_append, List.cons.injEq] at hshape
      exact absurd hshape.1 (by decide)
  -- the normalisation pipeline is the identity here
  have hc0 : (sgn ++ ds ++ fs).count ',' = 0 := List.count_eq_zero.mpr hcomma
  have hnorm : parseAmountNormalize s = stripCurrency s := by
    unfold parseAmountNormalize
    rw [hshape]
    dsimp only
    split_ifs <;> first | rfl | omega | simp_all
  -- both functions reduce to parseFloat of the same string
  have htok : floatToken (sgn ++ ds ++ fs) = (sgn ++ ds ++ fs, []) :=
    floatToken_plain sgn ds fs hsgn hne hds hfs
  have hPA : parseAmount s = (parseFloat (sgn ++ ds ++ fs)).getD 0 := by
    unfold parseAmount
    rw [if_neg (by rintro (h | h) <;> [exact hs_ne_nil h; exact hs_ne_dash h])]
    rw [hnorm, hshape]
  have hPL : parseLedgerAmount s = (parseFloat (sgn ++ ds ++ fs)).getD 0 := by
    simp only [parseLedgerAmount, sscanfF]
    rw [hshape, replaceAll_single_of_not_mem ',' [] _ hcomma, htok]
  rw [hPA, hPL]

/-- C6 (witness): the amended agreement instantiated on `"$ 123.45"`. -/
theorem ledger_amount_normalizer_amended_witness :
    parseLedgerAmount (strL "$ 123.45") = parseAmount (strL "$ 123.45") :=
  ledger_amount_normalizer_amended (strL "$ 123.45") [] (strL "123") (strL ".45")
    (by decide) (Or.inl rfl) (by decide) (by decide)
    (Or.inr ⟨strL "45", rfl, by decide⟩)

/-! ## Claim C8 -/

/-- A cell that does not even contain the date keyword cannot set the BROU
header row. -/
theorem brouScanCell_headerRow (i j : Nat) (cell : GoStr) (st : BrouScan)
    (hc : containsSub (lowerG (trimSpace cell)) (strL "fecha") = false) :
    (brouScanCell i j cell st).headerRow = st.headerRow := by
  have hne : eqFold (trimSpace cell) (strL "fecha") = false := by
    cases hx : eqFold (trimSpace cell) (strL "fecha")
    · rfl
    · exfalso
      have hl : lowerG (trimSpace cell) = lowerG (strL "fecha") :=
        of_decide_eq_true (by simpa [eqFold] using hx)
      rw [show lowerG (strL "fecha") = strL "fecha" from by decide] at hl
      rw [hl] at hc
      exact absurd hc (by decide)
  simp only [brouScanCell, hne, Bool.false_eq_true, if_false]
  split_ifs <;> rfl

/-- A cell that does not even contain the date keyword cannot set the Itau
header row. -/
theorem itauScanCell_headerRow (i j : Nat) (cell : GoStr) (st : ItauScan)
    (hc : containsSub (lowerG (trimSpace cell)) (strL "fecha") = false) :
    (itauScanCell i j cell st).headerRow = st.headerRow := by
  have hne : ¬ lowerG (trimSpace cell) = strL "fecha" := by
    intro hl
    rw [hl] at hc
    exact absurd hc (by decide)
  have hmon : ∀ (cr cs : GoStr) (s0 : ItauScan),
      (itauMonedaUpd j cr cs s0).headerRow = s0.headerRow := by
    intro cr cs s0
    unfold itauMonedaUpd
    dsimp only
    split_ifs <;> rfl
  simp only [itauScanCell]
  split_ifs <;> first
    | exact absurd (by assumption) hne
    | simpa using hmon (trimSpace cell) (lowerG (trimSpace cell)) st

/-- The second component of an enumerated element is an element. -/
theorem snd_mem_of_mem_enumFrom {α : Type} :
    ∀ (l : List α) (n : Nat) (p : Nat × α), p ∈ l.enumFrom n → p.2 ∈ l := by
  intro l
  induction l with
  | nil => intro n p h; simp [List.enumFrom] at h
  | cons a t ih =>
    intro n p h
    rcases List.mem_cons.mp h with h | h
    · subst h; exact List.mem_cons_self a t
    · exact List.mem_cons_of_mem a (ih (n + 1) p h)

/-- The second component of an `enum` element is an element. -/
theorem snd_mem_of_mem_enum {α : Type} (l : List α) (p : Nat × α)
    (h : p ∈ l.enum) : p.2 ∈ l :=
  snd_mem_of_mem_enumFrom l 0 p h

/-- The keyword-free property propagates through a BROU cell fold. -/
theorem brouScanFold_headerRow (i : Nat) :
    ∀ (l : List (Nat × GoStr)) (st : BrouScan),
      (∀ p ∈ l, containsSub (lowerG (trimSpace p.2)) (strL "fecha") = false) →
      (l.foldl (fun acc p => brouScanCell i p.1 p.2 acc) st).headerRow = st.headerRow := by
  intro l
  induction l with
  | nil => intro st _; rfl
  | cons p t ih =>
    intro st hr
    rw [List.foldl_cons]
    rw [ih _ (fun x hx => hr x (List.mem_cons_of_mem p hx))]
    exact brouScanCell_headerRow i p.1 p.2 st (hr p (List.mem_cons_self p t))

/-- The keyword-free property propagates through an Itau cell fold. -/
theorem itauScanFold_headerRow (i : Nat) :
    ∀ (l : List (Nat × GoStr)) (st : ItauScan),
      (∀ p ∈ l, containsSub (lowerG (trimSpace p.2)) (strL "fecha") = false) →
      (l.foldl (fun acc p => itauScanCell i p.1 p.2 acc) st).headerRow = st.headerRow := by
  intro l
  induction l with
  | nil => intro st _; rfl
  | cons p t ih =>
    intro st hr
    rw [List.foldl_cons]
    rw [ih _ (fun x hx => hr x (List.mem_cons_of_mem p hx))]
    exact itauScanCell_headerRow i p.1 p.2 st (hr p (List.mem_cons_self p t))

/-- Within the first 100 scanned rows, a keyword-free grid leaves the BROU
header undiscovered. -/
theorem brouFindHeader_none :
    ∀ (rows : List (List GoStr)) (i : Nat) (st : BrouScan),
      (∀ row ∈ rows.take (100 - i), ∀ cell ∈ row,
        containsSub (lowerG (trimSpace cell)) (strL "fecha") = false) →
      st.headerRow = -1 →
      (brouFindHeader i rows st).headerRow = -1 := by
  intro rows
  induction rows with
  | nil => intro i st _ h0; simpa [brouFindHeader] using h0
  | cons row rest ih =>
    intro i st hr h0
    unfold brouFindHeader
    by_cases hi : 100 ≤ i
    · rw [if_pos hi]; exact h0
    · rw [if_neg hi]
      have hmem : row ∈ (row :: rest).take (100 - i) := by
        have : 0 < 100 - i := by omega
        rcases Nat.exists_eq_succ_of_ne_zero (Nat.pos_iff_ne_zero.mp this) with ⟨k, hk⟩
        rw [hk, List.take_succ_cons]
        exact List.mem_cons_self _ _
      have hrow : ∀ cell ∈ row,
          containsSub (lowerG (trimSpace cell)) (strL "fecha") = false :=
        fun cell hc => hr row hmem cell hc
      have hst2 : (if row.length = 0 then st
          else brouScanRow i row st).headerRow = -1 := by
        split_ifs
        · exact h0
        · unfold brouScanRow
          rw [brouScanFold_headerRow i row.enum st
            (fun p hp => hrow p.2 (snd_mem_of_mem_enum row p hp))]
          exact h0
      rw [if_neg (by rw [hst2]; decide)]
      refine ih (i + 1) _ ?_ hst2
      intro r hmem2 cell hc
      refine hr r ?_ cell hc
      have hk : 100 - i = (100 - (i + 1)) + 1 := by omega
      rw [hk, List.take_succ_cons]
      exact List.mem_cons_of_mem _ hmem2

/-- Within the first 100 scanned rows, a keyword-free grid leaves the Itau
header undiscovered. -/
theorem itauFindHeader_none :
    ∀ (rows : List (List GoStr)) (i : Nat) (st : ItauScan),
      (∀ row ∈ rows.take (100 - i), ∀ cell ∈ row,
        containsSub (lowerG (trimSpace cell)) (strL "fecha") = false) →
      st.headerRow = -1 →
      (itauFindHeader i rows st).headerRow = -1 := by
  intro rows
  induction rows with
  | nil => intro i st _ h0; simpa [itauFindHeader] using h0
  | cons row rest ih =>
    intro i st hr h0
    unfold itauFindHeader
    by_cases hi : 100 ≤ i
    · rw [if_pos hi]; exact h0
    · rw [if_neg hi]
      have hmem : row ∈ (row :: rest).take (100 - i) := by
        have hk : 100 - i = (100 - (i + 1)) + 1 := by omega
        rw [hk, List.take_succ_cons]
        exact List.mem_cons_self _ _
      have hrow : ∀ cell ∈ row,
          containsSub (lowerG (trimSpace cell)) (strL "fecha") = false :=
        fun cell hc => hr row hmem cell hc
      have hst2 : (if row.length = 0 then st
          else itauScanRow i row st).headerRow = -1 := by
        split_ifs
        · exact h0
        · unfold itauScanRow
          rw [itauScanFold_headerRow i row.enum st
            (fun p hp => hrow p.2 (snd_mem_of_mem_enum row p hp))]
          exact h0
      rw [if_neg (by rw [hst2]; decide)]
      refine ih (i + 1) _ ?_ hst2
      intro r hmem2 cell hc
      refine hr r ?_ cell hc
      have hk : 100 - i = (100 - (i + 1)) + 1 := by omega
      rw [hk, List.take_succ_cons]
      exact List.mem_cons_of_mem _ hmem2

/-- C8: for both tabular readers, a sheet none of whose cells within the
first 100 rows contains the date keyword `fecha` (case-insensitively)
makes the parse return the header-not-found error — no statement and
hence no transactions are extracted. -/
theorem header_not_found (rows : List (List GoStr))
    (h : ∀ row ∈ rows.take 100, ∀ cell ∈ row,
      containsSub (lowerG (trimSpace cell)) (strL "fecha") = false) :
    parseBrouSheet rows = .error (strL "could not find header row in BROU statement") ∧
    parseItauSheet rows = .error (strL "could not find header row in Itau statement") := by
  constructor
  · unfold parseBrouSheet
    rw [if_pos (brouFindHeader_none rows 0 brouScanInit (by simpa using h) rfl)]
  · unfold parseItauSheet
    rw [if_pos (itauFindHeader_none rows 0 itauScanInit (by simpa using h) rfl)]

/-- C8 (witness): the header-not-found error on a concrete keyword-free
sheet. -/
theorem header_not_found_witness :
    parseBrouSheet [[strL "foo", strL "bar"]] =
      .error (strL "could not find header row in BROU statement") ∧
    parseItauSheet [[strL "foo", strL "bar"]] =
      .error (strL "could not find header row in Itau statement") :=
  header_not_found [[strL "foo", strL "bar"]] (by decide)

/-! ## Matching-pass lemmas (claims C1, C2, C7, C10) -/

/-- The first component of an enumerated element is below the length. -/
theorem fst_lt_of_mem_enum {α : Type} (l : List α) (p : Nat × α)
    (h : p ∈ l.enum) : p.1 < l.length := by
  have h1 : p.1 ∈ l.enum.map Prod.fst := List.mem_map_of_mem Prod.fst h
  rw [List.enum_map_fst] at h1
  exact List.mem_range.mp h1

/-- What a successful exact-pass search guarantees: the returned index is
one of the scanned indices and is not yet consumed. -/
theorem findExactMatch_spec (bt : BankTransaction) (mL : List Nat) :
    ∀ (l : List (Nat × LedgerTransaction)) (li : Nat),
      findExactMatch bt mL l = some li →
      (∃ p ∈ l, p.1 = li) ∧ mL.contains li = false := by
  intro l
  induction l with
  | nil => intro li h; simp [findExactMatch] at h
  | cons p t ih =>
    intro li h
    rcases p with ⟨lj, lt⟩
    unfold findExactMatch at h
    split_ifs at h with h1 h2 h3
    · rcases ih li h with ⟨⟨p2, hp2, he⟩, hc⟩
      exact ⟨⟨p2, List.mem_cons_of_mem _ hp2, he⟩, hc⟩
    · exact ⟨⟨(lj, lt), List.mem_cons_self _ _, Option.some.inj h⟩,
        by
          rcases Option.some.inj h with rfl
          simpa using h1⟩
    · rcases ih li h with ⟨⟨p2, hp2, he⟩, hc⟩
      exact ⟨⟨p2, List.mem_cons_of_mem _ hp2, he⟩, hc⟩
    · rcases ih li h with ⟨⟨p2, hp2, he⟩, hc⟩
      exact ⟨⟨p2, List.mem_cons_of_mem _ hp2, he⟩, hc⟩

/-- What a successful fuzzy-pass search guarantees: index provenance,
freshness, and the shape of the score. -/
theorem findFuzzyMatch_spec (bt : BankTransaction) (mL : List Nat) :
    ∀ (l : List (Nat × LedgerTransaction)) (li : Nat) (sc : ℚ),
      findFuzzyMatch bt mL l = some (li, sc) →
      (∃ p ∈ l, p.1 = li) ∧ mL.contains li = false ∧
      ∃ d : Nat, d ≤ 2 ∧ sc = 1 - (d : ℚ) / 3 := by
  intro l
  induction l with
  | nil => intro li sc h; simp [findFuzzyMatch] at h
  | cons p t ih =>
    intro li sc h
    rcases p with ⟨lj, lt⟩
    unfold findFuzzyMatch at h
    dsimp only at h
    have haccept : ∀ h2 : ¬ 2 < |bt.date - lt.date|,
        some (lj, 1 - ((|bt.date - lt.date| : ℤ) : ℚ) / 3) = some (li, sc) →
        ¬ mL.contains lj = true →
        (∃ p ∈ (lj, lt) :: t, p.1 = li) ∧ mL.contains li = false ∧
          ∃ d : Nat, d ≤ 2 ∧ sc = 1 - (d : ℚ) / 3 := by
      intro h2 hacc h1
      have hpair := Option.some.inj hacc
      have hli : lj = li := congrArg Prod.fst hpair
      have hsc : 1 - ((|bt.date - lt.date| : ℤ) : ℚ) / 3 = sc := congrArg Prod.snd hpair
      refine ⟨⟨(lj, lt), List.mem_cons_self _ _, hli⟩, ?_,
        (|bt.date - lt.date|).toNat, ?_, ?_⟩
      · rw [← hli]
        simpa using h1
      · have habs : (0 : Int) ≤ |bt.date - lt.date| := abs_nonneg _
        omega
      · have habs : (0 : Int) ≤ |bt.date - lt.date| := abs_nonneg _
        have h5 : ((|bt.date - lt.date|).toNat : Int) = |bt.date - lt.date| :=
          Int.toNat_of_nonneg habs
        have h6 : (((|bt.date - lt.date|).toNat : Nat) : ℚ) =
            ((|bt.date - lt.date| : Int) : ℚ) := by
          exact_mod_cast congrArg (fun z : Int => (z : ℚ)) h5
        rw [← hsc, h6]
    have hrec : findFuzzyMatch bt mL t = some (li, sc) →
        (∃ p ∈ (lj, lt) :: t, p.1 = li) ∧ mL.contains li = false ∧
          ∃ d : Nat, d ≤ 2 ∧ sc = 1 - (d : ℚ) / 3 := by
      intro hr
      rcases ih li sc hr with ⟨⟨p2, hp2, he⟩, hc, hd⟩
      exact ⟨⟨p2, List.mem_cons_of_mem _ hp2, he⟩, hc, hd⟩
    split_ifs at h with h1 h2 h3
    · exact hrec h
    · exact hrec h
    · exact haccept (by omega) h h1
    · exact hrec h

/-- The exact pass preserves the bookkeeping invariant. -/
theorem exactPass_inv (n nl : Nat) (ltsE : List (Nat × LedgerTransaction))
    (hlts : ∀ p ∈ ltsE, p.1 < nl) :
    ∀ (input : List (Nat × BankTransaction)) (st : MatchState),
      (∀ p ∈ input, p.1 < n) → matchStateInv n nl st →
      matchStateInv n nl (exactPass ltsE input st) := by
  intro input
  induction input with
  | nil => intro st _ hinv; exact hinv
  | cons p t ih =>
    intro st hin hinv
    rcases p with ⟨bi, bt⟩
    unfold exactPass
    split_ifs with hc
    · exact ih st (fun x hx => hin x (List.mem_cons_of_mem _ hx)) hinv
    · cases hfind : findExactMatch bt st.matchedLedger ltsE with
      | none => exact ih st (fun x hx => hin x (List.mem_cons_of_mem _ hx)) hinv
      | some li =>
        refine ih _ (fun x hx => hin x (List.mem_cons_of_mem _ hx)) ?_
        obtain ⟨hmb, hml, hnb, hnl2, hbb, hbl, hsc⟩ := hinv
        obtain ⟨⟨pl, hpl, hple⟩, hlc⟩ := findExactMatch_spec bt st.matchedLedger ltsE li hfind
        have hbi_notmem : bi ∉ st.matchedBank := by simpa using hc
        have hli_notmem : li ∉ st.matchedLedger := by simpa using hlc
        refine ⟨by simp [hmb], by simp [hml], ?_, ?_, ?_, ?_, ?_⟩
        · simp [List.nodup_append, hnb, hbi_notmem]
        · simp [List.nodup_append, hnl2, hli_notmem]
        · intro b hb
          rcases List.mem_append.mp hb with hb | hb
          · exact hbb b hb
          · rcases List.mem_singleton.mp hb with rfl
            exact hin (b, bt) (List.mem_cons_self _ _)
        · intro l2 hl2
          rcases List.mem_append.mp hl2 with hl2 | hl2
          · exact hbl l2 hl2
          · rcases List.mem_singleton.mp hl2 with rfl
            exact hple ▸ hlts pl hpl
        · intro m hm
          rcases List.mem_append.mp hm with hm | hm
          · exact hsc m hm
          · rcases List.mem_singleton.mp hm with rfl
            exact Or.inl ⟨rfl, rfl⟩

/-- The fuzzy pass preserves the bookkeeping invariant. -/
theorem fuzzyPass_inv (n nl : Nat) (ltsE : List (Nat × LedgerTransaction))
    (hlts : ∀ p ∈ ltsE, p.1 < nl) :
    ∀ (input : List (Nat × BankTransaction)) (st : MatchState),
      (∀ p ∈ input, p.1 < n) → matchStateInv n nl st →
      matchStateInv n nl (fuzzyPass ltsE input st) := by
  intro input
  induction input with
  | nil => intro st _ hinv; exact hinv
  | cons p t ih =>
    intro st hin hinv
    rcases p with ⟨bi, bt⟩
    unfold fuzzyPass
    split_ifs with hc
    · exact ih st (fun x hx => hin x (List.mem_cons_of_mem _ hx)) hinv
    · cases hfind : findFuzzyMatch bt st.matchedLedger ltsE with
      | none => exact ih st (fun x hx => hin x (List.mem_cons_of_mem _ hx)) hinv
      | some pr =>
        rcases pr with ⟨li, sc⟩
        refine ih _ (fun x hx => hin x (List.mem_cons_of_mem _ hx)) ?_
        obtain ⟨hmb, hml, hnb, hnl2, hbb, hbl, hsc⟩ := hinv
        obtain ⟨⟨pl, hpl, hple⟩, hlc, d, hd2, hdsc⟩ :=
          findFuzzyMatch_spec bt st.matchedLedger ltsE li sc hfind
        have hbi_notmem : bi ∉ st.matchedBank := by simpa using hc
        have hli_notmem : li ∉ st.matchedLedger := by simpa using hlc
        refine ⟨by simp [hmb], by simp [hml], ?_, ?_, ?_, ?_, ?_⟩
        · simp [List.nodup_append, hnb, hbi_notmem]
        · simp [List.nodup_append, hnl2, hli_notmem]
        · intro b hb
          rcases List.mem_append.mp hb with hb | hb
          · exact hbb b hb
          · rcases List.mem_singleton.mp hb with rfl
            exact hin (b, bt) (List.mem_cons_self _ _)
        · intro l2 hl2
          rcases List.mem_append.mp hl2 with hl2 | hl2
          · exact hbl l2 hl2
          · rcases List.mem_singleton.mp hl2 with rfl
            exact hple ▸ hlts pl hpl
        · intro m hm
          rcases List.mem_append.mp hm with hm | hm
          · exact hsc m hm
          · rcases List.mem_singleton.mp hm with rfl
            exact Or.inr ⟨rfl, d, hd2, hdsc⟩

/-- The final matching state of `ReconcileBankStatement` satisfies the
bookkeeping invariant. -/
theorem reconcileMatchState_inv (stmt : BankStatement) (lts : List LedgerTransaction) :
    matchStateInv stmt.transactions.length lts.length (reconcileMatchState stmt lts) := by
  have hlts : ∀ p ∈ lts.enum, p.1 < lts.length := fun p hp => fst_lt_of_mem_enum lts p hp
  have hbts : ∀ p ∈ stmt.transactions.enum, p.1 < stmt.transactions.length :=
    fun p hp => fst_lt_of_mem_enum stmt.transactions p hp
  have hinit : matchStateInv stmt.transactions.length lts.length ⟨[], [], []⟩ := by
    refine ⟨rfl, rfl, List.nodup_nil, List.nodup_nil, ?_, ?_, ?_⟩ <;> simp
  unfold reconcileMatchState
  exact fuzzyPass_inv _ _ lts.enum hlts stmt.transactions.enum _ hbts
    (exactPass_inv _ _ lts.enum hlts stmt.transactions.enum _ hbts hinit)

/-- Counting the first components of a filtered enumeration: with
duplicate-free keys, the count of `bi` is one exactly when `bi` is a key
that the exclusion set does not contain. -/
theorem count_fst_filter_not_contains (mB : List Nat) {α : Type} :
    ∀ (l : List (Nat × α)) (bi : Nat), (l.map Prod.fst).Nodup →
      ((l.filter (fun p => ¬ mB.contains p.1)).map (fun p => p.1)).count bi =
        if bi ∈ l.map Prod.fst ∧ bi ∉ mB then 1 else 0 := by
  intro l
  induction l with
  | nil => intro bi _; simp
  | cons p t ih =>
    intro bi hnd
    rcases p with ⟨j, a⟩
    have hj_not : j ∉ t.map Prod.fst := by
      simp only [List.map_cons, List.nodup_cons] at hnd
      exact hnd.1
    have hnd_t : (t.map Prod.fst).Nodup := by
      simp only [List.map_cons, List.nodup_cons] at hnd
      exact hnd.2
    by_cases hjm : j ∈ mB
    · have hfil : (((j, a) :: t).filter (fun p => ¬ mB.contains p.1)) =
          t.filter (fun p => ¬ mB.contains p.1) := by
        rw [List.filter_cons]
        simp [hjm]
      rw [hfil, ih bi hnd_t]
      by_cases hbij : bi = j
      · subst hbij
        simp [hj_not, hjm]
      · have hcond : (bi ∈ j :: List.map Prod.fst t ∧ bi ∉ mB) ↔
            (bi ∈ List.map Prod.fst t ∧ bi ∉ mB) := by
          rw [List.mem_cons]
          simp [hbij]
        simp only [List.map_cons]
        rw [if_congr hcond rfl rfl]
    · have hfil : (((j, a) :: t).filter (fun p => ¬ mB.contains p.1)) =
          (j, a) :: t.filter (fun p => ¬ mB.contains p.1) := by
        rw [List.filter_cons]
        simp [hjm]
      rw [hfil, List.map_cons, List.count_cons, ih bi hnd_t]
      by_cases hbij : bi = j
      · subst hbij
        simp [hj_not, hjm]
      · have hjb : ¬ j = bi := fun e => hbij e.symm
        have hcond : (bi ∈ j :: List.map Prod.fst t ∧ bi ∉ mB) ↔
            (bi ∈ List.map Prod.fst t ∧ bi ∉ mB) := by
          rw [List.mem_cons]
          simp [hbij]
        simp only [List.map_cons]
        rw [if_congr hcond rfl rfl]
        have hbeq : ¬ (((j, a).1 == bi) = true) := by simpa using hjb
        simp [hbeq]

/-! ## Claim C2 -/

/-- C2 (counterexample): a fuzzy match produced with a two-day difference
carries score 1/3, which is not greater than the claimed acceptance
threshold 0.6 (the current fuzzy pass has no threshold at all). -/
theorem fuzzy_score_threshold_cex :
    (ReconcileBankStatement
        (wStmt [wBt (goDate 2024 3 10) 0 500] (goDate 2024 3 10) (goDate 2024 3 10))
        [wLt (goDate 2024 3 8) 500]).matchList =
      [{ bi := 0, li := 0, matchScore := 1 / 3, matchType := strL "fuzzy" }] ∧
    ¬ ((3 : ℚ) / 5 < 1 / 3) := by decide

/-- C2 (amended): every match of the exact pass has score exactly 1 and
every match of the fuzzy pass has score `1 - d/3` for a day difference
`d ≤ 2`, hence in `[1/3, 1]`; in particular every confidence score lies
in `[0, 1]`. -/
theorem match_scores_amended (stmt : BankStatement) (lts : List LedgerTransaction)
    (m : RMatch) (hm : m ∈ (ReconcileBankStatement stmt lts).matchList) :
    (0 ≤ m.matchScore ∧ m.matchScore ≤ 1) ∧
    ((m.matchType = strL "exact" ∧ m.matchScore = 1) ∨
     (m.matchType = strL "fuzzy" ∧ 1 / 3 ≤ m.matchScore ∧
       ∃ d : Nat, d ≤ 2 ∧ m.matchScore = 1 - (d : ℚ) / 3)) := by
  have hm2 : m ∈ (reconcileMatchState stmt lts).matchList := hm
  have hsc := (reconcileMatchState_inv stmt lts).2.2.2.2.2.2 m hm2
  rcases hsc with ⟨ht, h1⟩ | ⟨ht, d, hd, hs⟩
  · exact ⟨⟨by rw [h1]; norm_num, le_of_eq h1⟩, Or.inl ⟨ht, h1⟩⟩
  · have hdq : (d : ℚ) ≤ 2 := by exact_mod_cast hd
    have h0 : (0 : ℚ) ≤ (d : ℚ) := by positivity
    refine ⟨⟨?_, ?_⟩, Or.inr ⟨ht, ?_, d, hd, hs⟩⟩
    · rw [hs]; linarith
    · rw [hs]; linarith
    · rw [hs]; linarith

/-- C2 (witness): the amended score discipline instantiated on a concrete
exact match. -/
theorem match_scores_amended_witness :
    (0 ≤ (RMatch.mk 0 0 1 (strL "exact")).matchScore ∧
      (RMatch.mk 0 0 1 (strL "exact")).matchScore ≤ 1) ∧
    (((RMatch.mk 0 0 1 (strL "exact")).matchType = strL "exact" ∧
        (RMatch.mk 0 0 1 (strL "exact")).matchScore = 1) ∨
     ((RMatch.mk 0 0 1 (strL "exact")).matchType = strL "fuzzy" ∧
        1 / 3 ≤ (RMatch.mk 0 0 1 (strL "exact")).matchScore ∧
        ∃ d : Nat, d ≤ 2 ∧
          (RMatch.mk 0 0 1 (strL "exact")).matchScore = 1 - (d : ℚ) / 3)) :=
  match_scores_amended
    (wStmt [wBt (goDate 2024 3 10) 0 500] (goDate 2024 3 10) (goDate 2024 3 10))
    [wLt (goDate 2024 3 10) 500]
    (RMatch.mk 0 0 1 (strL "exact")) (by decide)

/-! ## Claim C1 -/

/-- C1: reconciliation is a partition — every bank-transaction index of
the statement is either paired by exactly one match or listed (by index)
exactly once among the unmatched bank transactions, and no bank or ledger
transaction is paired by more than one match across the two passes. -/
theorem reconcile_partition (stmt : BankStatement) (lts : List LedgerTransaction) :
    (∀ bi : Nat,
      (((ReconcileBankStatement stmt lts).matchList.map (fun m => m.bi)).count bi +
        ((unmatchedBankEnum stmt lts).map (fun p => p.1)).count bi) =
        (if bi < stmt.transactions.length then 1 else 0)) ∧
    (∀ bi : Nat,
      ((ReconcileBankStatement stmt lts).matchList.map (fun m => m.bi)).count bi ≤ 1) ∧
    (∀ li : Nat,
      ((ReconcileBankStatement stmt lts).matchList.map (fun m => m.li)).count li ≤ 1) := by
  obtain ⟨hmb, hml, hnb, hnl, hbb, hbl, _⟩ := reconcileMatchState_inv stmt lts
  have hres_b : (ReconcileBankStatement stmt lts).matchList.map (fun m => m.bi) =
      (reconcileMatchState stmt lts).matchedBank := hmb.symm
  have hres_l : (ReconcileBankStatement stmt lts).matchList.map (fun m => m.li) =
      (reconcileMatchState stmt lts).matchedLedger := hml.symm
  have henum_fst : stmt.transactions.enum.map Prod.fst =
      List.range stmt.transactions.length := List.enum_map_fst _
  have henum_nd : (stmt.transactions.enum.map Prod.fst).Nodup := by
    rw [henum_fst]; exact List.nodup_range _
  refine ⟨?_, ?_, ?_⟩
  · intro bi
    rw [hres_b]
    have hcount2 := count_fst_filter_not_contains
      (reconcileMatchState stmt lts).matchedBank stmt.transactions.enum bi henum_nd
    have : ((unmatchedBankEnum stmt lts).map (fun p => p.1)).count bi =
        if bi ∈ stmt.transactions.enum.map Prod.fst ∧
           bi ∉ (reconcileMatchState stmt lts).matchedBank then 1 else 0 := by
      rw [← hcount2]; rfl
    rw [this, henum_fst]
    by_cases hmem : bi ∈ (reconcileMatchState stmt lts).matchedBank
    · rw [List.count_eq_one_of_mem hnb hmem]
      have hlt : bi < stmt.transactions.length := hbb bi hmem
      rw [if_pos hlt, if_neg (by simp [hmem])]
    · rw [List.count_eq_zero_of_not_mem hmem]
      by_cases hlt : bi < stmt.transactions.length
      · rw [if_pos hlt, if_pos ⟨List.mem_range.mpr hlt, hmem⟩]
      · rw [if_neg hlt, if_neg (by rintro ⟨hr, _⟩; exact hlt (List.mem_range.mp hr))]
  · intro bi
    rw [hres_b]
    exact List.nodup_iff_count_le_one.mp hnb bi
  · intro li
    rw [hres_l]
    exact List.nodup_iff_count_le_one.mp hnl li

/-! ## Claim C10 -/

/-- C10: `ReconcileBankStatement` does not modify its inputs — the
embedding of the call returns the statement and the ledger list unchanged,
the result carries the input statement itself, and every match refers into
the unchanged inputs by an in-range index; all matching state lives in the
returned result. -/
theorem reconcile_frame (stmt : BankStatement) (lts : List LedgerTransaction) :
    ReconcileBankStatementCall stmt lts = (ReconcileBankStatement stmt lts, stmt, lts) ∧
    (ReconcileBankStatement stmt lts).bankStatement = stmt ∧
    ∀ m ∈ (ReconcileBankStatement stmt lts).matchList,
      m.bi < stmt.transactions.length ∧ m.li < lts.length := by
  refine ⟨rfl, rfl, fun m hm => ?_⟩
  obtain ⟨hmb, hml, _, _, hbb, hbl, _⟩ := reconcileMatchState_inv stmt lts
  have hm2 : m ∈ (reconcileMatchState stmt lts).matchList := hm
  constructor
  · exact hbb m.bi (by rw [hmb]; exact List.mem_map_of_mem _ hm2)
  · exact hbl m.li (by rw [hml]; exact List.mem_map_of_mem _ hm2)

/-! ## Claim C7 -/

/-- C7: for a statement with a real (non-zero) date span, an unmatched
ledger transaction is reported in `UnmatchedLedger` exactly when its date
lies inside the span: dates strictly before `StartDate` or strictly after
`EndDate` are excluded, dates inside are included. -/
theorem unmatched_ledger_span (stmt : BankStatement) (lts : List LedgerTransaction)
    (hs : stmt.startDate ≠ goZeroDay) (he : stmt.endDate ≠ goZeroDay) :
    (∀ lt ∈ lts, (lt.date < stmt.startDate ∨ stmt.endDate < lt.date) →
      lt ∉ (ReconcileBankStatement stmt lts).unmatchedLedger) ∧
    (∀ p ∈ lts.enum,
      ¬ (reconcileMatchState stmt lts).matchedLedger.contains p.1 →
      stmt.startDate ≤ p.2.date → p.2.date ≤ stmt.endDate →
      p.2 ∈ (ReconcileBankStatement stmt lts).unmatchedLedger) := by
  have hrepr : (ReconcileBankStatement stmt lts).unmatchedLedger =
      (unmatchedLedgerEnum stmt lts).map (fun p => p.2) := rfl
  constructor
  · intro lt _ hdate hmem
    rw [hrepr] at hmem
    rcases List.mem_map.mp hmem with ⟨p, hp, hpe⟩
    have hpe2 : p.2 = lt := hpe
    subst hpe2
    rcases List.mem_filter.mp hp with ⟨_, hpred⟩
    have hpred2 := of_decide_eq_true hpred
    rcases hdate with hdate | hdate
    · exact hpred2.2.1 ⟨hs, hdate⟩
    · exact hpred2.2.2 ⟨he, hdate⟩
  · intro p hp hunm hd1 hd2
    rw [hrepr]
    refine List.mem_map.mpr ⟨p, List.mem_filter.mpr ⟨hp, ?_⟩, rfl⟩
    refine decide_eq_true ?_
    refine ⟨hunm, ?_, ?_⟩
    · rintro ⟨_, hlt⟩; exact absurd hd1 (by omega)
    · rintro ⟨_, hlt⟩; exact absurd hd2 (by omega)

/-- C7 (witness): an unmatched in-span ledger transaction is reported on a
concrete reconciliation. -/
theorem unmatched_ledger_span_witness :
    wLt (goDate 2024 3 9) 7 ∈
      (ReconcileBankStatement
        (wStmt [wBt (goDate 2024 3 10) 0 500] (goDate 2024 3 8) (goDate 2024 3 10))
        [wLt (goDate 2024 3 9) 7]).unmatchedLedger :=
  (unmatched_ledger_span
      (wStmt [wBt (goDate 2024 3 10) 0 500] (goDate 2024 3 8) (goDate 2024 3 10))
      [wLt (goDate 2024 3 9) 7] (by decide) (by decide)).2
    (0, wLt (goDate 2024 3 9) 7) (by decide) (by decide) (by decide) (by decide)

/-! ## Reader lemmas (claims C3, C4) -/

/-- The span update does not touch the transaction list. -/
theorem spanUpd_transactions (st : BankStatement) (d : Int) :
    (spanUpd st d).transactions = st.transactions := by
  unfold spanUpd
  dsimp only
  split_ifs <;> rfl

/-- Pushing a transaction appends it to the list. -/
theorem pushTx_transactions (st : BankStatement) (tx : BankTransaction) :
    (pushTx st tx).transactions = st.transactions ++ [tx] := by
  unfold pushTx
  dsimp only
  split_ifs <;> rfl

/-- Every transaction produced by the BROU row loop either was already
accumulated or takes its debit and credit from the debit and credit cells
of one of the remaining rows. -/
theorem brouRowsLoop_mem (sc : BrouScan) :
    ∀ (rows : List (List GoStr)) (acc : BankStatement) (tx : BankTransaction),
      tx ∈ (brouRowsLoop sc rows acc).transactions →
      tx ∈ acc.transactions ∨
        ∃ row ∈ rows, tx.debit = parseAmount (cellAt row sc.debitCol) ∧
          tx.credit = parseAmount (cellAt row sc.creditCol) := by
  intro rows
  induction rows with
  | nil => intro acc tx h; exact Or.inl h
  | cons row rest ih =>
    intro acc tx h
    unfold brouRowsLoop at h
    dsimp only at h
    split_ifs at h
    · rcases ih acc tx h with h | ⟨r, hr, he⟩
      · exact Or.inl h
      · exact Or.inr ⟨r, List.mem_cons_of_mem _ hr, he⟩
    · exact Or.inl h
    · rcases hdate : parseBrouDate (cellAt row sc.dateCol) with _ | date <;>
        (rw [hdate] at h; dsimp only at h)
      · rcases ih acc tx h with h | ⟨r, hr, he⟩
        · exact Or.inl h
        · exact Or.inr ⟨r, List.mem_cons_of_mem _ hr, he⟩
      · rcases ih _ tx h with h | ⟨r, hr, he⟩
        · rw [pushTx_transactions] at h
          rcases List.mem_append.mp h with h | h
          · exact Or.inl h
          · rcases List.mem_singleton.mp h with rfl
            exact Or.inr ⟨row, List.mem_cons_self _ _, rfl, rfl⟩
        · exact Or.inr ⟨r, List.mem_cons_of_mem _ hr, he⟩

/-- Every transaction produced by the Itau row loop either was already
accumulated or takes its debit and credit from the debit and credit cells
of one of the remaining rows. -/
theorem itauRowsLoop_mem (sc : ItauScan) :
    ∀ (rows : List (List GoStr)) (acc : BankStatement) (tx : BankTransaction),
      tx ∈ (itauRowsLoop sc rows acc).transactions →
      tx ∈ acc.transactions ∨
        ∃ row ∈ rows, tx.debit = parseAmount (cellAt row sc.debitCol) ∧
          tx.credit = parseAmount (cellAt row sc.creditCol) := by
  intro rows
  induction rows with
  | nil => intro acc tx h; exact Or.inl h
  | cons row rest ih =>
    intro acc tx h
    unfold itauRowsLoop at h
    dsimp only at h
    split_ifs at h
    · rcases ih acc tx h with h | ⟨r, hr, he⟩
      · exact Or.inl h
      · exact Or.inr ⟨r, List.mem_cons_of_mem _ hr, he⟩
    · exact Or.inl h
    · rcases ih acc tx h with h | ⟨r, hr, he⟩
      · exact Or.inl h
      · exact Or.inr ⟨r, List.mem_cons_of_mem _ hr, he⟩
    · rcases hdate : parseItauDate (cellAt row sc.dateCol) with _ | date <;>
        (rw [hdate] at h; dsimp only at h)
      · rcases ih acc tx h with h | ⟨r, hr, he⟩
        · exact Or.inl h
        · exact Or.inr ⟨r, List.mem_cons_of_mem _ hr, he⟩
      · rcases ih _ tx h with h | ⟨r, hr, he⟩
        · rw [pushTx_transactions] at h
          rcases List.mem_append.mp h with h | h
          · exact Or.inl h
          · rcases List.mem_singleton.mp h with rfl
            exact Or.inr ⟨row, List.mem_cons_self _ _, rfl, rfl⟩
        · exact Or.inr ⟨r, List.mem_cons_of_mem _ hr, he⟩
    · rcases ih acc tx h with h | ⟨r, hr, he⟩
      · exact Or.inl h
      · exact Or.inr ⟨r, List.mem_cons_of_mem _ hr, he⟩

/-- Every transaction produced by the CSV row loop either was already
accumulated or takes its debit and credit from the debit and credit cells
of one of the remaining rows. -/
theorem csvRowsLoop_mem (cols : CsvCols) (account : GoStr) :
    ∀ (rows : List (List GoStr)) (acc : BankStatement) (tx : BankTransaction),
      tx ∈ (csvRowsLoop cols account rows acc).transactions →
      tx ∈ acc.transactions ∨
        ∃ row ∈ rows, tx.debit = parseAmount (cellAt row cols.debitCol) ∧
          tx.credit = parseAmount (cellAt row cols.creditCol) := by
  intro rows
  induction rows with
  | nil => intro acc tx h; exact Or.inl h
  | cons row rest ih =>
    intro acc tx h
    unfold csvRowsLoop at h
    dsimp only at h
    split_ifs at h
    · rcases ih acc tx h with h | ⟨r, hr, he⟩
      · exact Or.inl h
      · exact Or.inr ⟨r, List.mem_cons_of_mem _ hr, he⟩
    · rcases ih acc tx h with h | ⟨r, hr, he⟩
      · exact Or.inl h
      · exact Or.inr ⟨r, List.mem_cons_of_mem _ hr, he⟩
    · rcases hdate : parseBrouDate (cellAt row cols.dateCol) with _ | date <;>
        (rw [hdate] at h; dsimp only at h)
      · rcases ih acc tx h with h | ⟨r, hr, he⟩
        · exact Or.inl h
        · exact Or.inr ⟨r, List.mem_cons_of_mem _ hr, he⟩
      · rcases ih _ tx h with h | ⟨r, hr, he⟩
        · rw [pushTx_transactions] at h
          rcases List.mem_append.mp h with h | h
          · exact Or.inl h
          · rcases List.mem_singleton.mp h with rfl
            exact Or.inr ⟨row, List.mem_cons_self _ _, rfl, rfl⟩
        · exact Or.inr ⟨r, List.mem_cons_of_mem _ hr, he⟩

/-- Every transaction record the Visa reader builds satisfies the sign
discipline. -/
theorem signOk_visaTx (date : Int) (description : GoStr) (amount : ℚ)
    (curr : GoStr) : signOk (visaTx date description amount curr) := by
  unfold signOk visaTx
  dsimp only
  split_ifs with h
  · exact ⟨le_rfl, by linarith, Or.inl rfl⟩
  · exact ⟨by linarith, le_rfl, Or.inr rfl⟩

/-- Any transaction present after the Visa reader processes a single line
either was already present in one of the two statements or satisfies the
sign discipline. -/
theorem processVisaLine_mem (vs : VisaState) (line : GoStr)
    (t : BankTransaction)
    (h : t ∈ (processVisaLine vs line).peso.transactions ∨
         t ∈ (processVisaLine vs line).dollar.transactions) :
    (t ∈ vs.peso.transactions ∨ t ∈ vs.dollar.transactions) ∨ signOk t := by
  unfold processVisaLine at h
  rcases hm : visaDateMatch line with _ | ⟨day, month, year2, lineAfterDate⟩ <;>
    rw [hm] at h
  · exact Or.inl h
  · dsimp only at h
    split_ifs at h
    all_goals try dsimp only at h
    all_goals
      try simp only [spanUpd_transactions, pushTx_transactions, List.mem_append,
        List.mem_singleton] at h
    all_goals rcases h with h | h
    all_goals
      first
        | exact Or.inl (Or.inl h)
        | exact Or.inl (Or.inr h)
        | (rcases h with h | rfl
           · first
               | exact Or.inl (Or.inl h)
               | exact Or.inl (Or.inr h)
           · exact Or.inr (signOk_visaTx _ _ _ _))

/-- `Int.ediv` is the `/` of the `Div Int` instance (definitional). -/
theorem ediv_eq_hdiv (a b : Int) : a.ediv b = a / b := rfl

/-- `Int.emod` is the `%` of the `Mod Int` instance (definitional). -/
theorem emod_eq_hmod (a b : Int) : a.emod b = a % b := rfl

/-- A date built by the Visa reader (two-digit day, month and year fields
in the 2000s) is never the Go zero date. -/
theorem visaDate_ne_goZeroDay (y m d : Nat) :
    goDate (2000 + (y : Int)) (m : Int) (d : Int) ≠ goZeroDay := by
  unfold goDate goZeroDay daysFromCivil
  dsimp only
  simp only [ediv_eq_hdiv, emod_eq_hmod]
  split_ifs <;> omega

/-- The start date after a push. -/
theorem pushTx_startDate (st : BankStatement) (tx : BankTransaction) :
    (pushTx st tx).startDate =
      if st.startDate = goZeroDay ∨ tx.date < st.startDate then tx.date
      else st.startDate := by
  unfold pushTx
  dsimp only
  split_ifs <;> rfl

/-- The end date after a push. -/
theorem pushTx_endDate (st : BankStatement) (tx : BankTransaction) :
    (pushTx st tx).endDate =
      if st.endDate = goZeroDay ∨ st.endDate < tx.date then tx.date
      else st.endDate := by
  unfold pushTx
  dsimp only
  split_ifs <;> rfl

/-- The start date after a bare span update. -/
theorem spanUpd_startDate (st : BankStatement) (d : Int) :
    (spanUpd st d).startDate =
      if st.startDate = goZeroDay ∨ d < st.startDate then d
      else st.startDate := by
  unfold spanUpd
  dsimp only
  split_ifs <;> rfl

/-- The end date after a bare span update. -/
theorem spanUpd_endDate (st : BankStatement) (d : Int) :
    (spanUpd st d).endDate =
      if st.endDate = goZeroDay ∨ st.endDate < d then d
      else st.endDate := by
  unfold spanUpd
  dsimp only
  split_ifs <;> rfl

/-- Pushing a transaction with a non-zero date preserves the exact span
discipline (when no recorded date is the zero date). -/
theorem pushTx_spanInv (st : BankStatement) (tx : BankTransaction)
    (hd : tx.date ≠ goZeroDay)
    (h : spanInv st) : spanInv (pushTx st tx) := by
  obtain ⟨h1, h2, h3, h4, h5⟩ := h
  unfold spanInv
  rw [pushTx_transactions, pushTx_startDate, pushTx_endDate]
  rcases hst : st.transactions with _ | ⟨t0, ts⟩
  · obtain ⟨hs0, he0⟩ := h1 hst
    rw [hs0, he0, if_pos (Or.inl rfl), if_pos (Or.inl rfl)]
    refine ⟨by simp, fun hc => absurd hc hd, fun hc => absurd hc hd, ?_, ?_⟩
    · intro _
      simp
    · intro t ht
      rcases List.mem_singleton.mp (by simpa using ht) with rfl
      exact ⟨le_rfl, le_rfl⟩
  · have hne : t0 :: ts ≠ [] := List.cons_ne_nil t0 ts
    have hsz : st.startDate ≠ goZeroDay := fun hc => hne ((hst ▸ h2) hc)
    have hez : st.endDate ≠ goZeroDay := fun hc => hne ((hst ▸ h3) hc)
    obtain ⟨hsm, hem⟩ := h4 (by rw [hst]; exact hne)
    have h5' : ∀ t ∈ t0 :: ts, st.startDate ≤ t.date ∧ t.date ≤ st.endDate :=
      fun t ht => h5 t (hst ▸ ht)
    rw [hst] at hsm hem
    constructor
    · intro hc
      exact absurd hc (by simp)
    refine ⟨?_, ?_, ?_, ?_⟩
    · intro hc
      split_ifs at hc
      · exact absurd hc hd
      · exact absurd hc hsz
    · intro hc
      split_ifs at hc
      · exact absurd hc hd
      · exact absurd hc hez
    · intro _
      constructor
      · split_ifs with hc
        · simp
        · rw [List.map_append, List.mem_append]
          exact Or.inl hsm
      · split_ifs with hc
        · simp
        · rw [List.map_append, List.mem_append]
          exact Or.inl hem
    · intro t ht
      rcases List.mem_append.mp ht with ht | ht
      · obtain ⟨hb1, hb2⟩ := h5' t ht
        constructor
        · split_ifs with hc
          · rcases hc with hc | hc
            · exact absurd hc hsz
            · exact le_of_lt (lt_of_lt_of_le hc hb1)
          · exact hb1
        · split_ifs with hc
          · rcases hc with hc | hc
            · exact absurd hc hez
            · exact le_of_lt (lt_of_le_of_lt hb2 hc)
          · exact hb2
      · rcases List.mem_singleton.mp ht with rfl
        constructor
        · split_ifs with hc
          · exact le_rfl
          · push_neg at hc
            exact hc.2
        · split_ifs with hc
          · exact le_rfl
          · push_neg at hc
            exact hc.2

/-- Pushing a transaction with a non-zero date preserves the weak span
discipline. -/
theorem pushTx_spanBounds (st : BankStatement) (tx : BankTransaction)
    (hd : tx.date ≠ goZeroDay) (h : spanBounds st) :
    spanBounds (pushTx st tx) := by
  obtain ⟨h1, h2, h3⟩ := h
  unfold spanBounds
  rw [pushTx_transactions, pushTx_startDate, pushTx_endDate]
  refine ⟨?_, ?_, ?_⟩
  · intro hc
    split_ifs at hc with hsp
    · exact absurd hc hd
    · exact absurd (Or.inl hc) hsp
  · intro hc
    split_ifs at hc with hsp
    · exact absurd hc hd
    · exact absurd (Or.inl hc) hsp
  · intro t ht
    rcases List.mem_append.mp ht with ht | ht
    · obtain ⟨hb1, hb2⟩ := h3 t ht
      constructor
      · split_ifs with hc
        · rcases hc with hc | hc
          · rw [h1 hc] at ht
            cases ht
          · exact le_of_lt (lt_of_lt_of_le hc hb1)
        · exact hb1
      · split_ifs with hc
        · rcases hc with hc | hc
          · rw [h2 hc] at ht
            cases ht
          · exact le_of_lt (lt_of_le_of_lt hb2 hc)
        · exact hb2
    · rcases List.mem_singleton.mp ht with rfl
      constructor
      · split_ifs with hc
        · exact le_rfl
        · push_neg at hc
          exact hc.2
      · split_ifs with hc
        · exact le_rfl
        · push_neg at hc
          exact hc.2

/-- A bare span update with a non-zero date preserves the weak span
discipline. -/
theorem spanUpd_spanBounds (st : BankStatement) (d : Int)
    (hd : d ≠ goZeroDay) (h : spanBounds st) : spanBounds (spanUpd st d) := by
  obtain ⟨h1, h2, h3⟩ := h
  unfold spanBounds
  rw [spanUpd_transactions, spanUpd_startDate, spanUpd_endDate]
  refine ⟨?_, ?_, ?_⟩
  · intro hc
    split_ifs at hc
    · exact absurd hc hd
    · exact h1 hc
  · intro hc
    split_ifs at hc
    · exact absurd hc hd
    · exact h2 hc
  · intro t ht
    obtain ⟨hb1, hb2⟩ := h3 t ht
    constructor
    · split_ifs with hc
      · rcases hc with hc | hc
        · rw [h1 hc] at ht
          cases ht
        · exact le_of_lt (lt_of_lt_of_le hc hb1)
      · exact hb1
    · split_ifs with hc
      · rcases hc with hc | hc
        · rw [h2 hc] at ht
          cases ht
        · exact le_of_lt (lt_of_le_of_lt hb2 hc)
      · exact hb2

/-- The Visa payment-line update (direct append of a transaction followed
by the bare span update with the same date) preserves the weak span
discipline. -/
theorem spanUpd_append_spanBounds (st : BankStatement) (tx : BankTransaction)
    (d : Int) (hd : d ≠ goZeroDay) (htx : tx.date = d) (h : spanBounds st) :
    spanBounds (spanUpd { st with transactions := st.transactions ++ [tx] } d) := by
  obtain ⟨h1, h2, h3⟩ := h
  unfold spanBounds
  rw [spanUpd_transactions, spanUpd_startDate, spanUpd_endDate]
  dsimp only
  refine ⟨?_, ?_, ?_⟩
  · intro hc
    split_ifs at hc with hsp
    · exact absurd hc hd
    · exact absurd (Or.inl hc) hsp
  · intro hc
    split_ifs at hc with hsp
    · exact absurd hc hd
    · exact absurd (Or.inl hc) hsp
  · intro t ht
    rcases List.mem_append.mp ht with ht | ht
    · obtain ⟨hb1, hb2⟩ := h3 t ht
      constructor
      · split_ifs with hc
        · rcases hc with hc | hc
          · rw [h1 hc] at ht
            cases ht
          · exact le_of_lt (lt_of_lt_of_le hc hb1)
        · exact hb1
      · split_ifs with hc
        · rcases hc with hc | hc
          · rw [h2 hc] at ht
            cases ht
          · exact le_of_lt (lt_of_le_of_lt hb2 hc)
        · exact hb2
    · rcases List.mem_singleton.mp ht with rfl
      rw [htx]
      constructor
      · split_ifs with hc
        · exact le_rfl
        · push_neg at hc
          exact hc.2
      · split_ifs with hc
        · exact le_rfl
        · push_neg at hc
          exact hc.2

/-- The BROU extraction loop preserves the exact span discipline when no
remaining row's date cell parses to the zero date. -/
theorem brouRowsLoop_spanInv (sc : BrouScan) :
    ∀ (rows : List (List GoStr)) (acc : BankStatement),
      spanInv acc →
      (∀ row ∈ rows, (parseBrouDate (cellAt row sc.dateCol)).getD 0 ≠ goZeroDay) →
      spanInv (brouRowsLoop sc rows acc) := by
  intro rows
  induction rows with
  | nil => intro acc h _; exact h
  | cons row rest ih =>
    intro acc h hrows
    unfold brouRowsLoop
    dsimp only
    split_ifs
    · exact ih acc h (fun r hr => hrows r (List.mem_cons_of_mem _ hr))
    · exact h
    · rcases hdate : parseBrouDate (cellAt row sc.dateCol) with _ | date <;>
        dsimp only
      · exact ih acc h (fun r hr => hrows r (List.mem_cons_of_mem _ hr))
      · refine ih _ (pushTx_spanInv acc _ ?_ h)
          (fun r hr => hrows r (List.mem_cons_of_mem _ hr))
        have hz := hrows row (List.mem_cons_self _ _)
        rw [hdate] at hz
        exact hz

/-- The Itau extraction loop preserves the exact span discipline when no
remaining row's date cell parses to the zero date. -/
theorem itauRowsLoop_spanInv (sc : ItauScan) :
    ∀ (rows : List (List GoStr)) (acc : BankStatement),
      spanInv acc →
      (∀ row ∈ rows, (parseItauDate (cellAt row sc.dateCol)).getD 0 ≠ goZeroDay) →
      spanInv (itauRowsLoop sc rows acc) := by
  intro rows
  induction rows with
  | nil => intro acc h _; exact h
  | cons row rest ih =>
    intro acc h hrows
    unfold itauRowsLoop
    dsimp only
    split_ifs
    · exact ih acc h (fun r hr => hrows r (List.mem_cons_of_mem _ hr))
    · exact h
    · exact ih acc h (fun r hr => hrows r (List.mem_cons_of_mem _ hr))
    · rcases hdate : parseItauDate (cellAt row sc.dateCol) with _ | date <;>
        dsimp only
      · exact ih acc h (fun r hr => hrows r (List.mem_cons_of_mem _ hr))
      · refine ih _ (pushTx_spanInv acc _ ?_ h)
          (fun r hr => hrows r (List.mem_cons_of_mem _ hr))
        have hz := hrows row (List.mem_cons_self _ _)
        rw [hdate] at hz
        exact hz
    · exact ih acc h (fun r hr => hrows r (List.mem_cons_of_mem _ hr))

/-- The CSV extraction loop preserves the exact span discipline when no
remaining row's date cell parses to the zero date. -/
theorem csvRowsLoop_spanInv (cols : CsvCols) (account : GoStr) :
    ∀ (rows : List (List GoStr)) (acc : BankStatement),
      spanInv acc →
      (∀ row ∈ rows, (parseBrouDate (cellAt row cols.dateCol)).getD 0 ≠ goZeroDay) →
      spanInv (csvRowsLoop cols account rows acc) := by
  intro rows
  induction rows with
  | nil => intro acc h _; exact h
  | cons row rest ih =>
    intro acc h hrows
    unfold csvRowsLoop
    dsimp only
    split_ifs
    · exact ih acc h (fun r hr => hrows r (List.mem_cons_of_mem _ hr))
    · exact ih acc h (fun r hr => hrows r (List.mem_cons_of_mem _ hr))
    · rcases hdate : parseBrouDate (cellAt row cols.dateCol) with _ | date <;>
        dsimp only
      · exact ih acc h (fun r hr => hrows r (List.mem_cons_of_mem _ hr))
      · refine ih _ (pushTx_spanInv acc _ ?_ h)
          (fun r hr => hrows r (List.mem_cons_of_mem _ hr))
        have hz := hrows row (List.mem_cons_self _ _)
        rw [hdate] at hz
        exact hz

/-- Processing one Visa line preserves the weak span discipline on both
per-currency statements. -/
theorem processVisaLine_spanBounds (vs : VisaState) (line : GoStr)
    (hp : spanBounds vs.peso) (hd : spanBounds vs.dollar) :
    spanBounds (processVisaLine vs line).peso ∧
    spanBounds (processVisaLine vs line).dollar := by
  unfold processVisaLine
  rcases hm : visaDateMatch line with _ | ⟨day, month, year2, rest⟩
  · exact ⟨hp, hd⟩
  · have hdz : goDate (2000 + (year2 : Int)) (month : Int) (day : Int) ≠ goZeroDay :=
      visaDate_ne_goZeroDay year2 month day
    dsimp only
    split_ifs
    all_goals try dsimp only
    all_goals constructor
    all_goals
      first
        | exact hp
        | exact hd
        | exact spanUpd_spanBounds _ _ hdz hp
        | exact spanUpd_spanBounds _ _ hdz hd
        | exact spanUpd_append_spanBounds _ _ _ hdz rfl hp
        | exact spanUpd_append_spanBounds _ _ _ hdz rfl hd

/-- The fold of the Visa line processor preserves the weak span
discipline on both per-currency statements. -/
theorem visaFold_spanBounds (lines : List GoStr) :
    ∀ vs : VisaState, spanBounds vs.peso → spanBounds vs.dollar →
      spanBounds (lines.foldl processVisaLine vs).peso ∧
      spanBounds (lines.foldl processVisaLine vs).dollar := by
  induction lines with
  | nil => intro vs hp hd; exact ⟨hp, hd⟩
  | cons l ls ih =>
    intro vs hp hd
    obtain ⟨hp', hd'⟩ := processVisaLine_spanBounds vs l hp hd
    exact ih (processVisaLine vs l) hp' hd'

/-- The fold of the Visa line processor preserves the sign discipline of
every recorded transaction. -/
theorem visaFold_signOk (lines : List GoStr) :
    ∀ vs : VisaState,
      (∀ t : BankTransaction,
        t ∈ vs.peso.transactions ∨ t ∈ vs.dollar.transactions → signOk t) →
      ∀ t : BankTransaction,
        t ∈ (lines.foldl processVisaLine vs).peso.transactions ∨
          t ∈ (lines.foldl processVisaLine vs).dollar.transactions → signOk t := by
  induction lines with
  | nil => intro vs h t ht; exact h t ht
  | cons l ls ih =>
    intro vs h t ht
    refine ih (processVisaLine vs l) ?_ t ht
    intro u hu
    rcases processVisaLine_mem vs l u hu with h' | h'
    · exact h u h'
    · exact h'

/-- C4 (counterexample): on a Visa payment line the reader updates both
date spans even when the zero peso amount suppresses the transaction, so
the peso statement ends up with `StartDate = 19783` (2024-03-01) while
its only transaction is dated `19787` (2024-03-05): the start date is not
the minimum of the contained transaction dates (it is not even one of
them). -/
theorem statement_span_cex :
    (ParseVisaItauStatement
        [strL "01 03 24 PAGOS 0,00 -123,45",
         strL "05 03 24 COMPRA SUPER 1.510,00"]).toOption.map
      (fun sts => sts.map (fun st =>
        (st.startDate, st.endDate, st.transactions.map (fun tx => tx.date),
         decide (st.startDate ∈ st.transactions.map (fun tx => tx.date)))))
      = some [(19783, 19787, [19787], false), (19783, 19783, [19783], true)] := by
  decide

/-- C4 (amended): every reader keeps `StartDate ≤ t.Date ≤ EndDate` for
every transaction `t` — the Visa reader unconditionally, the tabular and
CSV readers provided no date cell parses to the Go zero date (a zero-date
transaction makes the span logic treat the running start/end as unset);
for the tabular and CSV readers start and end are moreover attained (they
are the minimum and maximum of the contained dates), while the Visa
payment-line handling can widen the span beyond the contained dates. -/
theorem statement_span_amended
    (lineTexts : List GoStr) (rowsB rowsI records : List (List GoStr))
    (account : GoStr) (visaStmts : List BankStatement)
    (stB stI stC : BankStatement)
    (hV : ParseVisaItauStatement lineTexts = .ok visaStmts)
    (hB : parseBrouSheet rowsB = .ok stB)
    (hI : parseItauSheet rowsI = .ok stI)
    (hC : ParseBankStatementCSV records account = .ok stC)
    (hBdates : ∀ row ∈ rowsB,
        (parseBrouDate
          (cellAt row (brouFindHeader 0 rowsB brouScanInit).dateCol)).getD 0 ≠
          goZeroDay)
    (hIdates : ∀ row ∈ rowsI,
        (parseItauDate
          (cellAt row (itauFindHeader 0 rowsI itauScanInit).dateCol)).getD 0 ≠
          goZeroDay)
    (hCdates : ∀ row ∈ records,
        (parseBrouDate
          (cellAt row
            (csvHeaderScan (records.getD 0 []) (records.getD 1 [])).dateCol)).getD 0 ≠
          goZeroDay) :
    (∀ stV ∈ visaStmts, ∀ tx ∈ stV.transactions,
        stV.startDate ≤ tx.date ∧ tx.date ≤ stV.endDate) ∧
    spanInv stB ∧ spanInv stI ∧ spanInv stC := by
  refine ⟨?_, ?_, ?_, ?_⟩
  · intro stV hstV tx htx
    have hinit : spanBounds visaInitState.peso ∧ spanBounds visaInitState.dollar := by
      constructor <;>
        exact ⟨fun _ => rfl, fun _ => rfl, fun t ht => absurd ht (List.not_mem_nil t)⟩
    obtain ⟨hfp, hfd⟩ := visaFold_spanBounds lineTexts visaInitState hinit.1 hinit.2
    unfold ParseVisaItauStatement at hV
    dsimp only at hV
    split_ifs at hV
    all_goals
      first
        | exact Except.noConfusion hV
        | (injection hV with hV
           subst hV
           try simp only [List.append_nil, List.nil_append] at hstV
           first
             | exact absurd hstV (List.not_mem_nil stV)
             | (rcases List.mem_append.mp hstV with hs | hs <;>
                 rcases List.mem_singleton.mp hs with rfl <;>
                 first
                   | exact hfp.2.2 tx htx
                   | exact hfd.2.2 tx htx)
             | (rcases List.mem_singleton.mp hstV with rfl
                first
                  | exact hfp.2.2 tx htx
                  | exact hfd.2.2 tx htx))
  · unfold parseBrouSheet at hB
    dsimp only at hB
    split_ifs at hB
    injection hB with hB
    subst hB
    refine brouRowsLoop_spanInv (brouFindHeader 0 rowsB brouScanInit) _ _
      ⟨fun _ => ⟨rfl, rfl⟩, fun _ => rfl, fun _ => rfl,
       fun hne => absurd rfl hne, fun t ht => absurd ht (List.not_mem_nil t)⟩
      (fun r hr => hBdates r (List.mem_of_mem_drop hr))
  · unfold parseItauSheet at hI
    dsimp only at hI
    split_ifs at hI
    injection hI with hI
    subst hI
    refine itauRowsLoop_spanInv (itauFindHeader 0 rowsI itauScanInit) _ _
      ⟨fun _ => ⟨rfl, rfl⟩, fun _ => rfl, fun _ => rfl,
       fun hne => absurd rfl hne, fun t ht => absurd ht (List.not_mem_nil t)⟩
      (fun r hr => hIdates r (List.mem_of_mem_drop hr))
  · unfold ParseBankStatementCSV at hC
    dsimp only at hC
    split_ifs at hC
    injection hC with hC
    subst hC
    refine csvRowsLoop_spanInv (csvHeaderScan (records.getD 0 []) (records.getD 1 []))
      account _ _
      ⟨fun _ => ⟨rfl, rfl⟩, fun _ => rfl, fun _ => rfl,
       fun hne => absurd rfl hne, fun t ht => absurd ht (List.not_mem_nil t)⟩
      (fun r hr => hCdates r (List.mem_of_mem_drop hr))

/-- C4 (witness): the amended span discipline applied to concrete parses
of all four readers; the stated instance is the exact span invariant of
the concrete BROU parse. -/
theorem statement_span_amended_witness :
    spanInv ((parseBrouSheet
        [[strL "fecha", strL "descripción", strL "débito", strL "crédito"],
         [strL "02/01/2020", strL "COMPRA", strL "100,50", strL ""]]).toOption.getD
      visaInitState.peso) := by
  have h := statement_span_amended
    [strL "05 03 24 COMPRA SUPER 1.510,00"]
    [[strL "fecha", strL "descripción", strL "débito", strL "crédito"],
     [strL "02/01/2020", strL "COMPRA", strL "100,50", strL ""]]
    [[strL "fecha", strL "concepto", strL "debito", strL "credito", strL "saldo"],
     [strL "02/01/2020", strL "COMPRA", strL "", strL "200,75", strL "1000"]]
    [[strL "fecha", strL "debito", strL "credito"],
     [strL "02/01/2020", strL "", strL "5"]]
    (strL "A")
    ((ParseVisaItauStatement [strL "05 03 24 COMPRA SUPER 1.510,00"]).toOption.getD [])
    ((parseBrouSheet
        [[strL "fecha", strL "descripción", strL "débito", strL "crédito"],
         [strL "02/01/2020", strL "COMPRA", strL "100,50", strL ""]]).toOption.getD
      visaInitState.peso)
    ((parseItauSheet
        [[strL "fecha", strL "concepto", strL "debito", strL "credito", strL "saldo"],
         [strL "02/01/2020", strL "COMPRA", strL "", strL "200,75", strL "1000"]]).toOption.getD
      visaInitState.peso)
    ((ParseBankStatementCSV
        [[strL "fecha", strL "debito", strL "credito"],
         [strL "02/01/2020", strL "", strL "5"]] (strL "A")).toOption.getD
      visaInitState.peso)
    (by decide) (by decide) (by decide) (by decide) (by decide) (by decide) (by decide)
  exact h.2.1

/-- The key column of the group map after an insertion: unchanged when
the key is already present, extended by the key otherwise. -/
theorem addToGroups_keys (key : GoStr) (tx : BankTransaction) (d : Int)
    (ba ca : GoStr) :
    ∀ l : List (GoStr × GroupedTransaction),
      (addToGroups key tx d ba ca l).map Prod.fst =
        if key ∈ l.map Prod.fst then l.map Prod.fst
        else l.map Prod.fst ++ [key] := by
  intro l
  induction l with
  | nil => simp [addToGroups]
  | cons p rest ih =>
    obtain ⟨k, g⟩ := p
    unfold addToGroups
    by_cases hk : k = key
    · subst hk
      rw [if_pos rfl]
      simp only [List.map_cons]
      rw [if_pos (List.mem_cons_self _ _)]
    · rw [if_neg hk]
      simp only [List.map_cons]
      rw [ih]
      by_cases hmem : key ∈ rest.map Prod.fst
      · rw [if_pos hmem, if_pos (List.mem_cons_of_mem _ hmem)]
      · rw [if_neg hmem,
            if_neg (by
              intro hc
              rcases List.mem_cons.mp hc with hc | hc
              · exact hk hc.symm
              · exact hmem hc)]
        rfl

/-- The ungrouped side of the classification fold: the accumulator
extended by exactly the transactions whose resolved counter-account
contains the `Unknown` sentinel, in order. -/
theorem classify_fold_fst (mappings : List AccountMapping) :
    ∀ (txs : List BankTransaction)
      (acc : List BankTransaction × List (GoStr × GroupedTransaction)),
      (txs.foldl
        (fun acc tx =>
          let amount := tx.credit - tx.debit
          let counterAccount :=
            GetAccountForDescription mappings tx.description (amount < 0)
          if containsSub counterAccount (strL "Unknown") then (acc.1 ++ [tx], acc.2)
          else (acc.1, addToGroups (groupKey tx counterAccount) tx tx.date tx.account
                counterAccount acc.2))
        acc).1 =
      acc.1 ++ txs.filter
        (fun tx => containsSub
          (GetAccountForDescription mappings tx.description (tx.credit - tx.debit < 0))
          (strL "Unknown")) := by
  intro txs
  induction txs with
  | nil => intro acc; simp
  | cons tx rest ih =>
    intro acc
    rw [List.foldl_cons, ih]
    dsimp only
    by_cases hc : containsSub
        (GetAccountForDescription mappings tx.description
          (decide (tx.credit - tx.debit < 0)))
        (strL "Unknown") = true
    · rw [if_pos hc, List.filter_cons, if_pos hc]
      simp
    · rw [if_neg hc, List.filter_cons, if_neg hc]

/-- The grouped side of the classification fold keeps its keys free of
duplicates. -/
theorem classify_fold_keys (mappings : List AccountMapping) :
    ∀ (txs : List BankTransaction)
      (acc : List BankTransaction × List (GoStr × GroupedTransaction)),
      (acc.2.map Prod.fst).Nodup →
      ((txs.foldl
        (fun acc tx =>
          let amount := tx.credit - tx.debit
          let counterAccount :=
            GetAccountForDescription mappings tx.description (amount < 0)
          if containsSub counterAccount (strL "Unknown") then (acc.1 ++ [tx], acc.2)
          else (acc.1, addToGroups (groupKey tx counterAccount) tx tx.date tx.account
                counterAccount acc.2))
        acc).2.map Prod.fst).Nodup := by
  intro txs
  induction txs with
  | nil => intro acc h; exact h
  | cons tx rest ih =>
    intro acc h
    rw [List.foldl_cons]
    refine ih _ ?_
    dsimp only
    split_ifs
    · exact h
    · rw [addToGroups_keys]
      split_ifs with hmem
      · exact h
      · refine List.Nodup.append h (List.nodup_singleton _) ?_
        intro a ha hb
        rw [List.mem_singleton] at hb
        subst hb
        exact hmem ha

/-- C9: entries are the individual entries of the unknown-account
transactions (in order) followed by one entry per group, the group keys
are duplicate-free (each `(date, bank account, counter-account)` class
yields exactly one entry), and on the concrete two-transaction scenario
(same date, same bank account, same resolved counter-account) the
generator emits exactly one grouped entry with two posting lines, each
carrying a per-line description comment. -/
theorem entry_grouping (mappings : List AccountMapping)
    (txs : List BankTransaction) :
    (GenerateLedgerEntries mappings txs =
      (txs.filter
        (fun tx => containsSub
          (GetAccountForDescription mappings tx.description (tx.credit - tx.debit < 0))
          (strL "Unknown"))).map individualEntry ++
      (classifyUnmatched mappings txs).2.map (fun p => groupEntry p.2)) ∧
    ((classifyUnmatched mappings txs).2.map Prod.fst).Nodup ∧
    GenerateLedgerEntries [⟨[strL "SUPER"], strL "Expenses:Food"⟩] [gtx1, gtx2] =
      [strL "2024/03/10 SUPER A (+1 more)\n  Assets:Bank:BROU  $-50.00  ; SUPER A\n  Assets:Bank:BROU  $-70.00  ; SUPER B\n  Expenses:Food\n"] := by
  refine ⟨?_, ?_, by decide⟩
  · unfold GenerateLedgerEntries classifyUnmatched
    dsimp only
    rw [classify_fold_fst]
    rfl
  · unfold classifyUnmatched
    exact classify_fold_keys mappings txs ([], []) (by simp)

/-- C3 (counterexample): the generic CSV reader copies `parseAmount` of
the debit and credit cells verbatim, so a parenthesised (negative) debit
cell together with a non-empty credit cell produces a transaction with
`Debit = -5 < 0` and `Credit = 5 ≠ 0`, violating the claimed sign
discipline. -/
theorem reader_sign_invariant_cex :
    (ParseBankStatementCSV
        [[strL "fecha", strL "debito", strL "credito"],
         [strL "02/01/2020", strL "(5)", strL "5"]] (strL "A")).toOption.map
        (fun st => st.transactions.map
          (fun tx => (tx.debit, tx.credit, decide (signOk tx))))
      = some [(-5, 5, false)] := by decide

/-- C3 (amended): the Visa PDF reader enforces the sign discipline
unconditionally (it splits a signed amount into a non-negative debit or a
non-negative credit); the BROU, Itau and CSV readers copy `parseAmount`
of the debit and credit cells verbatim, so their transactions satisfy the
discipline exactly when every row's parsed debit/credit cell pair does. -/
theorem reader_sign_invariant_amended
    (lineTexts : List GoStr) (rowsB rowsI records : List (List GoStr))
    (account : GoStr) (visaStmts : List BankStatement)
    (stB stI stC : BankStatement)
    (hV : ParseVisaItauStatement lineTexts = .ok visaStmts)
    (hB : parseBrouSheet rowsB = .ok stB)
    (hI : parseItauSheet rowsI = .ok stI)
    (hC : ParseBankStatementCSV records account = .ok stC)
    (hBcells : ∀ row ∈ rowsB,
        0 ≤ parseAmount (cellAt row (brouFindHeader 0 rowsB brouScanInit).debitCol) ∧
        0 ≤ parseAmount (cellAt row (brouFindHeader 0 rowsB brouScanInit).creditCol) ∧
        (parseAmount (cellAt row (brouFindHeader 0 rowsB brouScanInit).debitCol) = 0 ∨
         parseAmount (cellAt row (brouFindHeader 0 rowsB brouScanInit).creditCol) = 0))
    (hIcells : ∀ row ∈ rowsI,
        0 ≤ parseAmount (cellAt row (itauFindHeader 0 rowsI itauScanInit).debitCol) ∧
        0 ≤ parseAmount (cellAt row (itauFindHeader 0 rowsI itauScanInit).creditCol) ∧
        (parseAmount (cellAt row (itauFindHeader 0 rowsI itauScanInit).debitCol) = 0 ∨
         parseAmount (cellAt row (itauFindHeader 0 rowsI itauScanInit).creditCol) = 0))
    (hCcells : ∀ row ∈ records,
        0 ≤ parseAmount
          (cellAt row (csvHeaderScan (records.getD 0 []) (records.getD 1 [])).debitCol) ∧
        0 ≤ parseAmount
          (cellAt row (csvHeaderScan (records.getD 0 []) (records.getD 1 [])).creditCol) ∧
        (parseAmount
          (cellAt row (csvHeaderScan (records.getD 0 []) (records.getD 1 [])).debitCol) = 0 ∨
         parseAmount
          (cellAt row (csvHeaderScan (records.getD 0 []) (records.getD 1 [])).creditCol) = 0)) :
    (∀ stV ∈ visaStmts, ∀ tx ∈ stV.transactions, signOk tx) ∧
    (∀ tx ∈ stB.transactions, signOk tx) ∧
    (∀ tx ∈ stI.transactions, signOk tx) ∧
    (∀ tx ∈ stC.transactions, signOk tx) := by
  refine ⟨?_, ?_, ?_, ?_⟩
  · intro stV hstV tx htx
    have hfold := visaFold_signOk lineTexts visaInitState
      (by intro t ht; rcases ht with ht | ht <;> simp [visaInitState] at ht)
    unfold ParseVisaItauStatement at hV
    dsimp only at hV
    split_ifs at hV
    all_goals
      first
        | exact Except.noConfusion hV
        | (injection hV with hV
           subst hV
           try simp only [List.append_nil, List.nil_append] at hstV
           first
             | exact absurd hstV (List.not_mem_nil stV)
             | (rcases List.mem_append.mp hstV with hs | hs <;>
                 rcases List.mem_singleton.mp hs with rfl <;>
                 first
                   | exact hfold tx (Or.inl htx)
                   | exact hfold tx (Or.inr htx))
             | (rcases List.mem_singleton.mp hstV with rfl
                first
                  | exact hfold tx (Or.inl htx)
                  | exact hfold tx (Or.inr htx)))
  · intro tx htx
    unfold parseBrouSheet at hB
    dsimp only at hB
    split_ifs at hB
    injection hB with hB
    subst hB
    rcases brouRowsLoop_mem (brouFindHeader 0 rowsB brouScanInit) _ _ tx htx with
      h | ⟨row, hrow, hdeb, hcred⟩
    · cases h
    · unfold signOk
      rw [hdeb, hcred]
      exact hBcells row (List.mem_of_mem_drop hrow)
  · intro tx htx
    unfold parseItauSheet at hI
    dsimp only at hI
    split_ifs at hI
    injection hI with hI
    subst hI
    rcases itauRowsLoop_mem (itauFindHeader 0 rowsI itauScanInit) _ _ tx htx with
      h | ⟨row, hrow, hdeb, hcred⟩
    · cases h
    · unfold signOk
      rw [hdeb, hcred]
      exact hIcells row (List.mem_of_mem_drop hrow)
  · intro tx htx
    unfold ParseBankStatementCSV at hC
    dsimp only at hC
    split_ifs at hC
    injection hC with hC
    subst hC
    rcases csvRowsLoop_mem (csvHeaderScan (records.getD 0 []) (records.getD 1 []))
      account _ _ tx htx with h | ⟨row, hrow, hdeb, hcred⟩
    · cases h
    · unfold signOk
      rw [hdeb, hcred]
      exact hCcells row (List.mem_of_mem_drop hrow)

/-- C3 (witness): the amended sign invariant applied to concrete parses
of all four readers; the stated instance is the transaction produced by
the BROU reader from its sample sheet. -/
theorem reader_sign_invariant_amended_witness :
    signOk (((parseBrouSheet
        [[strL "fecha", strL "descripción", strL "débito", strL "crédito"],
         [strL "02/01/2020", strL "COMPRA", strL "100,50", strL ""]]).toOption.getD
        visaInitState.peso).transactions.getD 0
          { date := 0, description := [], debit := 0, credit := 0, balance := 0,
            reference := [], account := [], currency := [] }) := by
  have h := reader_sign_invariant_amended
    [strL "05 03 24 COMPRA SUPER 1.510,00"]
    [[strL "fecha", strL "descripción", strL "débito", strL "crédito"],
     [strL "02/01/2020", strL "COMPRA", strL "100,50", strL ""]]
    [[strL "fecha", strL "concepto", strL "debito", strL "credito", strL "saldo"],
     [strL "02/01/2020", strL "COMPRA", strL "", strL "200,75", strL "1000"]]
    [[strL "fecha", strL "debito", strL "credito"],
     [strL "02/01/2020", strL "", strL "5"]]
    (strL "A")
    ((ParseVisaItauStatement [strL "05 03 24 COMPRA SUPER 1.510,00"]).toOption.getD [])
    ((parseBrouSheet
        [[strL "fecha", strL "descripción", strL "débito", strL "crédito"],
         [strL "02/01/2020", strL "COMPRA", strL "100,50", strL ""]]).toOption.getD
      visaInitState.peso)
    ((parseItauSheet
        [[strL "fecha", strL "concepto", strL "debito", strL "credito", strL "saldo"],
         [strL "02/01/2020", strL "COMPRA", strL "", strL "200,75", strL "1000"]]).toOption.getD
      visaInitState.peso)
    ((ParseBankStatementCSV
        [[strL "fecha", strL "debito", strL "credito"],
         [strL "02/01/2020", strL "", strL "5"]] (strL "A")).toOption.getD
      visaInitState.peso)
    (by decide) (by decide) (by decide) (by decide) (by decide) (by decide) (by decide)
  exact h.2.1 _ (by decide)

end Webledger
